import Mathlib

/-!
# Verification of the TIKTOK_LITE_BOT command/ledger core

Shallow embedding of the two script variants (`src/index.js` and the unnamed
CommonJS variant `src/unnamed/part_000`) of the tiktok-lite-bot repository.

Modelling conventions:
* Text is modelled as `String` / `List Char`.  JavaScript `toLowerCase`,
  `trim`, and the `\s`, `\d`, `[a-z0-9]` regex classes are modelled on the
  ASCII range (all data the bot compares against is ASCII).
* Timestamps are minutes since an epoch (`Nat`) in the single configured
  time zone (`Asia/Seoul`, which has no DST), so a calendar day is a
  `t / 1440` bucket and `dayjs.add(14, "day")` is `+ 14 * 1440`.
* JavaScript numbers are modelled exactly: integers as `Int`, the decimal
  value of a numeric literal as `ℚ`, and `Math.round x` as `⌊x + 1/2⌋`
  (the ECMAScript definition, half toward +∞).
* The Google-Sheet tables are lists of records inside a `Store` structure;
  `addRow` is list append, `row.save()` is `List.set` at the row's index,
  and `_rowNumber` is the append-order index.  Fallible operations return
  `Except`/error flags; the JS code throws before any mutation in the
  failure cases modelled here, which the embedding renders by returning the
  unchanged store.
-/

/-! ## ASCII character helpers (JS string primitives) -/

/-- The decimal-digit test of the regex class `\d` (ASCII `0`–`9`). -/
def isDigitC (c : Char) : Bool := 48 ≤ c.toNat && c.toNat ≤ 57

/-- ASCII lower-case letter (`a`–`z`). -/
def isLowerAlpha (c : Char) : Bool := 97 ≤ c.toNat && c.toNat ≤ 122

/-- ASCII upper-case letter (`A`–`Z`). -/
def isUpperAlpha (c : Char) : Bool := 65 ≤ c.toNat && c.toNat ≤ 90

/-- Whitespace as used by `String.prototype.trim` / `\s` (ASCII range). -/
def isWsC (c : Char) : Bool :=
  c.toNat = 32 || (9 ≤ c.toNat && c.toNat ≤ 13)

/-- `String.prototype.toLowerCase`, character level, ASCII range. -/
def lowerChar (c : Char) : Char :=
  if 65 ≤ c.toNat ∧ c.toNat ≤ 90 then Char.ofNat (c.toNat + 32) else c

/-- `toLowerCase` on a character list. -/
def lowerL (l : List Char) : List Char := l.map lowerChar

/-- `toLowerCase` on a string. -/
def lowerStr (s : String) : String := ⟨lowerL s.data⟩

/-- `String.prototype.trim`: drop whitespace from both ends. -/
def trimList (l : List Char) : List Char :=
  (((l.dropWhile isWsC).reverse).dropWhile isWsC).reverse

/-- Numeric value of a digit character. -/
def digitVal (c : Char) : Nat := c.toNat - 48

/-- Decimal value of a digit list (`Number` on the integer part). -/
def natOfDigits (l : List Char) : Nat :=
  l.foldl (fun a c => a * 10 + digitVal c) 0

/-- Exact decimal value of `ds.fs` (the JS `Number(m[1])` of the match). -/
def decValue (ds fs : List Char) : ℚ :=
  (natOfDigits ds : ℚ) + (natOfDigits fs : ℚ) / (10 : ℚ) ^ fs.length

/-- `Math.round` (ECMAScript: half rounds toward +∞). -/
def jsRound (q : ℚ) : Int := ⌊q + 1 / 2⌋

/-! ## The money token parser (`parseMoney`, identical in both variants) -/

/-- The maximal digit prefix of a list together with the remainder: the
engine of the regex `^(\d+(\.\d+)?)(k)?$`. -/
def splitDigits : List Char → List Char × List Char
  | [] => ([], [])
  | c :: cs =>
    if isDigitC c then
      let p := splitDigits cs
      (c :: p.1, p.2)
    else ([], c :: cs)

/-- Full match of `^(\d+(\.\d+)?)(k)?$`: integer digits, optional fraction
digits, and whether the `k` suffix is present. -/
def matchShape (l : List Char) : Option (List Char × List Char × Bool) :=
  let p := splitDigits l
  if p.1 = [] then none
  else if p.2 = [] then some (p.1, [], false)
  else if p.2 = ['k'] then some (p.1, [], true)
  else if p.2.head? = some '.' then
    let q := splitDigits p.2.tail
    if q.1 = [] then none
    else if q.2 = [] then some (p.1, q.1, false)
    else if q.2 = ['k'] then some (p.1, q.1, true)
    else none
  else none

/-- `isK ? Math.round(num * 1000) : Math.round(num)`. -/
def moneyValue (ds fs : List Char) (k : Bool) : Int :=
  if k then jsRound (decValue ds fs * 1000) else jsRound (decValue ds fs)

/-- `s.trim().toLowerCase().replace(/,/g, "")` — the cleanup pipeline of
`parseMoney` (trim, lower-case, strip commas, in source order). -/
def cleanMoney (l : List Char) : List Char :=
  ((trimList l).map lowerChar).filter (fun c => c ≠ ',')

/-- Body of `parseMoney` after the falsy-input check. -/
def moneyCore (l : List Char) : Option Int :=
  match matchShape (cleanMoney l) with
  | none => none
  | some (ds, fs, k) => some (moneyValue ds fs k)

/-- `parseMoney` on a character list; the empty list is the falsy input
(`if (!input) return null`). -/
def parseMoneyL (l : List Char) : Option Int :=
  if l = [] then none else moneyCore l

/-- `parseMoney` (src/index.js lines 92–109, part_000 lines 85–93). -/
def parseMoney (s : String) : Option Int := parseMoneyL s.data

/-- `parseMoney(parts[i])` where the token may be absent (`undefined`). -/
def parseMoneyTok : Option (List Char) → Option Int
  | none => none
  | some l => parseMoneyL l

/-! ## Spec-side money parser (for the refinement claim C7)

`parseMoneySpec` follows the words of spec §4.1: trim and lower-case, strip
thousands-separator commas, require a full match of "digits, optional
decimal point and digits, optional trailing `k`", parse the numeric part as
a decimal, multiply by 1000 when the `k` suffix is present, round to the
nearest integer, and fail on empty input or any non-matching string. -/

/-- Spec-side shape check: strip one trailing `k` if present, then require
"digits, optionally a decimal point followed by digits". -/
def specShape (l : List Char) : Option (List Char × List Char × Bool) :=
  let bk : List Char × Bool :=
    if l.getLast? = some 'k' then (l.dropLast, true) else (l, false)
  let ip := bk.1.takeWhile isDigitC
  let rest := bk.1.dropWhile isDigitC
  if ip = [] then none
  else if rest = [] then some (ip, [], bk.2)
  else if rest.head? = some '.' ∧ rest.tail ≠ [] ∧ rest.tail.all isDigitC then
    some (ip, rest.tail, bk.2)
  else none

/-- Money parser as described by spec §4.1 (clearly spec-side; compared
against the source-side `parseMoney` in claim C7). -/
def parseMoneySpec (s : String) : Option Int :=
  if s.data = [] then none
  else
    match specShape (cleanMoney s.data) with
    | none => none
    | some (ds, fs, k) =>
      some (jsRound (decValue ds fs * (if k then 1000 else 1)))

/-! ## Characterization of the money-token shape

`ShapeP l ds fs k` is the decomposition "`l` is the digits `ds`, optionally
followed by `.` and the digits `fs`, optionally followed by `k`"; both the
source-side `matchShape` and the spec-side `specShape` are proved to realise
exactly this relation. -/

/-- The optional `k` suffix as a list. -/
def ktail (k : Bool) : List Char := if k then ['k'] else []

/-- Characters that can occur in a money token body. -/
def plainChar (c : Char) : Bool := isDigitC c || c == '.' || c == 'k'

/-- The decomposition relation realised by the money-token regex. -/
def ShapeP (l ds fs : List Char) (k : Bool) : Prop :=
  ds ≠ [] ∧ ds.all isDigitC = true ∧
    ((fs = [] ∧ l = ds ++ ktail k) ∨
     (fs ≠ [] ∧ fs.all isDigitC = true ∧ l = ds ++ '.' :: (fs ++ ktail k)))

instance (l ds fs : List Char) (k : Bool) : Decidable (ShapeP l ds fs k) := by
  unfold ShapeP
  infer_instance

/-! ## Channel-token normalization (`normalizeGameToken`) -/

/-- `normalizeGameToken` on a character list (index.js lines 362–368,
part_000 lines 279–285). -/
def normalizeGameTokenL (t : List Char) : List Char :=
  let l := lowerL t
  if l = "hopqua".data ∨ l = "hq".data ∨ l = "hh".data then "hq".data
  else if l = "qr".data then "qr".data
  else if l = "dabong".data ∨ l = "db".data then "db".data
  else l

/-- `normalizeGameToken` on strings. -/
def normalizeGameToken (s : String) : String := ⟨normalizeGameTokenL s.data⟩

/-! ## Data model: the Google-Sheet tables as a `Store`

Rows are records; timestamps are minutes (`Nat`); `_rowNumber` is modelled
by append order.  The JSON payloads of UNDO_LOG rows and the numeric suffix
of generated lot ids are irrelevant to every claim and are omitted. -/

/-- The closed wallet enum (`uri` / `hana` / `kt`). -/
inductive Wallet where
  | uri
  | hana
  | kt
deriving DecidableEq

/-- The stored wallet name (always lower case at every call site). -/
def walletName : Wallet → List Char
  | .uri => "uri".data
  | .hana => "hana".data
  | .kt => "kt".data

/-- `["uri", "hana", "kt"].includes(wallet)` together with which one. -/
def walletOf (w : List Char) : Option Wallet :=
  if w = "uri".data then some .uri
  else if w = "hana".data then some .hana
  else if w = "kt".data then some .kt
  else none

/-- A WALLET_LOG row. -/
structure WLogEntry where
  timestamp : Nat
  wallet : List Char
  amount : Int
  type : List Char
  ref : List Char
  note : List Char
deriving DecidableEq

/-- An INVITES row. -/
structure Invite where
  timestamp : Nat
  game : List Char
  name : List Char
  email : List Char
  time_invited : Nat
  due_date : Option Nat
  status : List Char
  chatId : Nat
  last_reminded_at : Option Nat
  checkin_reward : Option Int
  completed_at : Option Nat
deriving DecidableEq

/-- A CHECKIN_REWARD row. -/
structure CheckinRow where
  timestamp : Nat
  game : List Char
  name : List Char
  email : List Char
  reward : Int
  due_date : Option Nat
  chatId : Nat
deriving DecidableEq

/-- A GAME_REVENUE row. -/
structure RevRow where
  timestamp : Nat
  game : List Char
  type : List Char
  amount : Int
  note : List Char
  chatId : Nat
deriving DecidableEq

/-- A PHONES row. -/
structure Phone where
  timestamp : Nat
  phoneCode : List Char
  buyPrice : Int
  buyDate : Nat
  status : List Char
  wallet : List Char
  chatId : Nat
  game_source : Option (List Char)
  game_amount : Option Int
  profit : Option Int
  ok_at : Option Nat
deriving DecidableEq

/-- A LOTS row; `rowId` is the `_rowNumber` surrogate (append order). -/
structure Lot where
  timestamp : Nat
  lotId : List Char
  qty : Nat
  totalCost : Int
  date : Nat
  wallet : List Char
  chatId : Nat
  rowId : Nat
deriving DecidableEq

/-- A LOT_RESULT row. -/
structure LotResultRow where
  timestamp : Nat
  lotId : List Char
  lotRow : Nat
  qty : Nat
  totalCost : Int
  ok : Int
  tach : Nat
  game : List Char
  totalReward : Option Int
  profit : Option Int
deriving DecidableEq

/-- A PHONE_PROFIT_LOG row. -/
structure ProfitRow where
  timestamp : Nat
  phoneCode : List Char
  buyPrice : Int
  game_source : List Char
  game_amount : Int
  profit : Int
deriving DecidableEq

/-- An UNDO_LOG row (payload omitted). -/
structure UndoRow where
  timestamp : Nat
  action : List Char
deriving DecidableEq

/-- The whole persistent store.  Wallet balances are a total map
(`Number(row.Balance || "0") || 0` makes a missing row read as 0, and rows
are keyed by the closed enum). -/
structure Store where
  wallets : Wallet → Int
  walletLog : List WLogEntry
  invites : List Invite
  checkinRewards : List CheckinRow
  gameRevenue : List RevRow
  phones : List Phone
  lots : List Lot
  lotResults : List LotResultRow
  phoneProfitLog : List ProfitRow
  undoLog : List UndoRow

/-- A store with no rows: the base state for concrete scenarios. -/
def emptyStore : Store where
  wallets := fun _ => 0
  walletLog := []
  invites := []
  checkinRewards := []
  gameRevenue := []
  phones := []
  lots := []
  lotResults := []
  phoneProfitLog := []
  undoLog := []

/-- A concrete PHONES row used in scenarios (purchase price 35000). -/
def demoPhone : Phone where
  timestamp := 0
  phoneCode := "ssa34".data
  buyPrice := 35000
  buyDate := 0
  status := "bought".data
  wallet := []
  chatId := 7
  game_source := none
  game_amount := none
  profit := none
  ok_at := none

/-- A store holding only `demoPhone`. -/
def demoPhoneStore : Store := { emptyStore with phones := [demoPhone] }

/-- A concrete LOTS row used in witnesses. -/
def demoLot : Lot where
  timestamp := 0
  lotId := "LOT_".data
  qty := 5
  totalCost := 100
  date := 0
  wallet := []
  chatId := 1
  rowId := 0

/-- A concrete pending INVITES row used in scenarios (due at minute 1440). -/
def demoInvite : Invite where
  timestamp := 0
  game := "hq".data
  name := "Khanh".data
  email := "mail".data
  time_invited := 0
  due_date := some 1440
  status := "pending".data
  chatId := 7
  last_reminded_at := none
  checkin_reward := none
  completed_at := none

/-! ## Conversation sessions (`sessions` map) -/

/-- The outstanding question of a conversation (`sessions[chatId].pending`). -/
inductive Pend where
  | askWalletPhone (phoneCode : List Char) (buyPrice : Int)
  | askWalletLot (lotRowId : Nat) (totalCost : Int)
  | askCheckinReward (game name email : List Char)
deriving DecidableEq

/-- The in-memory session map, chat id to optional pending question. -/
def Sess : Type := Nat → Option Pend

/-- `sessions.set(String(chatId), {...})`. -/
def setSession (s : Sess) (chatId : Nat) (p : Pend) : Sess :=
  fun c => if c = chatId then some p else s c

/-- `sessions.delete(String(chatId))`. -/
def clearSess (s : Sess) (chatId : Nat) : Sess :=
  fun c => if c = chatId then none else s c

/-- The replies the modelled handlers can produce. -/
inductive Reply where
  | repromptWallet
  | repromptMoney
  | confirmPhoneWallet
  | confirmLotWallet
  | confirmCheckin
  | errorReply
  | silent
deriving DecidableEq

/-! ## Domain operations -/

/-- Minutes per calendar day in the fixed zone (no DST in Asia/Seoul). -/
def minutesPerDay : Nat := 1440

/-- The calendar day of a timestamp (`format("YYYY-MM-DD")` bucket). -/
def dayOf (t : Nat) : Nat := t / minutesPerDay

/-- `upsertWalletBalance(wallet, delta, ref, note)` (index.js lines 139–164):
read the current balance (0 when the row is missing), store
`current + delta`, and append a WALLET_LOG row for the signed delta. -/
def upsertWalletBalance (st : Store) (w : Wallet) (delta : Int)
    (ref note : List Char) (now : Nat) : Store :=
  let current := st.wallets w
  let next := current + delta
  { st with
    wallets := fun w' => if w' = w then next else st.wallets w'
    walletLog := st.walletLog ++
      [{ timestamp := now, wallet := walletName w, amount := delta,
         type := if delta < 0 then "debit".data else "credit".data,
         ref := ref, note := note }] }

/-- The admin `chinh` mutation (index.js lines 742–760): set the Balance
field to the absolute target while logging `delta = target − current`. -/
def adminSetWallet (st : Store) (w : Wallet) (amount : Int) (now : Nat) : Store :=
  let current := st.wallets w
  let delta := amount - current
  { st with
    wallets := fun w' => if w' = w then amount else st.wallets w'
    walletLog := st.walletLog ++
      [{ timestamp := now, wallet := walletName w, amount := delta,
         type := "admin_set".data, ref := "ADMIN_SET".data,
         note := "set balance".data }] }

/-- A wallet-affecting operation for claim C1 (timestamps/refs do not
affect the invariant and are fixed). -/
inductive WalletOp where
  | adjust (w : Wallet) (delta : Int)
  | adminSet (w : Wallet) (target : Int)
deriving DecidableEq

def applyWalletOp (st : Store) : WalletOp → Store
  | .adjust w delta => upsertWalletBalance st w delta [] [] 0
  | .adminSet w target => adminSetWallet st w target 0

/-- Balance = running sum of that wallet's WALLET_LOG amounts. -/
def walletInv (st : Store) : Prop :=
  ∀ w : Wallet,
    st.wallets w =
      ((st.walletLog.filter (fun e => e.wallet = walletName w)).map
        (fun e => e.amount)).sum

/-- `addGameRevenue` (index.js lines 189–201). -/
def addGameRevenue (st : Store) (chatId : Nat) (game : List Char)
    (amount : Int) (type note : List Char) (now : Nat) : Store :=
  { st with
    gameRevenue := st.gameRevenue ++
      [{ timestamp := now, game := game, type := type, amount := amount,
         note := note, chatId := chatId }]
    undoLog := st.undoLog ++ [⟨now, "ADD_GAME_REVENUE".data⟩] }

/-- `createInvite` (index.js lines 203–222): status `pending`, due date
exactly 14 days after the invitation time. -/
def createInvite (st : Store) (chatId : Nat) (game name email : List Char)
    (now : Nat) : Store :=
  { st with
    invites := st.invites ++
      [{ timestamp := now, game := game, name := name, email := email,
         time_invited := now, due_date := some (now + 14 * minutesPerDay),
         status := "pending".data, chatId := chatId,
         last_reminded_at := none, checkin_reward := none,
         completed_at := none }]
    undoLog := st.undoLog ++ [⟨now, "ADD_INVITE".data⟩] }

/-- The filter of `markInviteDoneAndAddCheckin`: pending, same game, and
email (when non-empty) or name matches case-insensitively. -/
def inviteMatches (r : Invite) (game name email : List Char) : Bool :=
  decide (lowerL r.status = "pending".data) &&
  decide (lowerL r.game = game) &&
  ((decide (email ≠ []) && decide (lowerL r.email = lowerL email)) ||
   decide (lowerL r.name = lowerL name))

/-- Head of a stable descending sort by `key`: the first element carrying
the maximal key (JS `Array.prototype.sort` is stable). -/
def bestBy {α : Type} (key : α → Nat) (l : List (Nat × α)) : Option (Nat × α) :=
  l.foldl
    (fun best p =>
      match best with
      | none => some p
      | some b => if key b.2 < key p.2 then some p else some b)
    none

/-- The invite selected for completion: the most recently invited pending
match (earliest row wins ties). -/
def selectInvite (rows : List Invite) (game name email : List Char) :
    Option (Nat × Invite) :=
  bestBy (fun r => r.time_invited)
    (rows.enum.filter (fun p => inviteMatches p.2 game name email))

/-- `markInviteDoneAndAddCheckin` (index.js lines 224–274).  The source
throws before any write when no pending invite matches; afterwards it
appends the CHECKIN_REWARD row, posts the revenue event, marks the invite
done with reward and completion timestamp, and logs the undo entries. -/
def markInviteDoneAndAddCheckin (st : Store) (chatId : Nat)
    (game name email : List Char) (reward : Int) (now : Nat) :
    Except (List Char) Store :=
  match selectInvite st.invites game name email with
  | none => .error "Khong tim thay invite pending".data
  | some (i, t) =>
    let st1 := { st with
      checkinRewards := st.checkinRewards ++
        [{ timestamp := now, game := game, name := t.name, email := t.email,
           reward := reward, due_date := t.due_date, chatId := chatId }] }
    let st2 := addGameRevenue st1 chatId game reward "checkin_reward".data
      "checkin 14 ngay".data now
    .ok { st2 with
      invites := st2.invites.set i
        { t with status := "done".data, checkin_reward := some reward,
                 completed_at := some now }
      undoLog := st2.undoLog ++ [⟨now, "DONE_INVITE_CHECKIN".data⟩] }

/-- `createPhone` (index.js lines 276–288): status `bought`, empty wallet. -/
def createPhone (st : Store) (chatId : Nat) (phoneCode : List Char)
    (buyPrice : Int) (now : Nat) : Store :=
  { st with
    phones := st.phones ++
      [{ timestamp := now, phoneCode := phoneCode, buyPrice := buyPrice,
         buyDate := now, status := "bought".data, wallet := [],
         chatId := chatId, game_source := none, game_amount := none,
         profit := none, ok_at := none }]
    undoLog := st.undoLog ++ [⟨now, "ADD_PHONE".data⟩] }

/-- The most recently bought PHONES row matching a code case-insensitively
(`sort` descending by buy date, stable, then `[0]`). -/
def selectPhone (phones : List Phone) (code : List Char) :
    Option (Nat × Phone) :=
  bestBy (fun p => p.buyDate)
    (phones.enum.filter (fun p => decide (lowerL p.2.phoneCode = lowerL code)))

/-- `setPhoneWallet` (index.js lines 290–301); throws when no row matches. -/
def setPhoneWallet (st : Store) (code w : List Char) :
    Except (List Char) Store :=
  match selectPhone st.phones code with
  | none => .error "Khong tim thay may".data
  | some (i, t) =>
    .ok { st with phones := st.phones.set i { t with wallet := w } }

/-- `logPhoneProfit` (index.js lines 303–333): profit is the reported game
amount minus the recorded purchase price by plain integer subtraction; the
row becomes status `ok` and a PHONE_PROFIT_LOG row plus an UNDO_LOG row are
appended.  Returns `{ buyPrice, profit }` alongside the new store. -/
def logPhoneProfit (st : Store) (code gameSource : List Char)
    (gameAmount : Int) (now : Nat) : Except (List Char) (Store × Int × Int) :=
  match selectPhone st.phones code with
  | none => .error "Khong tim thay may".data
  | some (i, t) =>
    let buyPrice := t.buyPrice
    let profit := gameAmount - buyPrice
    .ok ({ st with
      phones := st.phones.set i
        { t with status := "ok".data, game_source := some gameSource,
                 game_amount := some gameAmount, profit := some profit,
                 ok_at := some now }
      phoneProfitLog := st.phoneProfitLog ++
        [{ timestamp := now, phoneCode := code, buyPrice := buyPrice,
           game_source := gameSource, game_amount := gameAmount,
           profit := profit }]
      undoLog := st.undoLog ++ [⟨now, "PHONE_OK_PROFIT".data⟩] },
      buyPrice, profit)

/-- `createLot` (index.js lines 335–347); the numeric suffix of the
generated lot id is irrelevant here. -/
def createLot (st : Store) (chatId : Nat) (qty : Nat) (totalCost : Int)
    (now : Nat) : Store :=
  { st with
    lots := st.lots ++
      [{ timestamp := now, lotId := "LOT_".data, qty := qty,
         totalCost := totalCost, date := now, wallet := [],
         chatId := chatId, rowId := st.lots.length }]
    undoLog := st.undoLog ++ [⟨now, "ADD_LOT".data⟩] }

/-- `getLatestLot` (index.js lines 349–354): most recent by date. -/
def getLatestLot (st : Store) : Option (Nat × Lot) :=
  bestBy (fun l => l.date) st.lots.enum

/-- `lots.find(r => r._rowNumber === lotRowNumber)`. -/
def findLotByRow (lots : List Lot) (rowId : Nat) : Option (Nat × Lot) :=
  lots.enum.find? (fun p => decide (p.2.rowId = rowId))

/-- `saveLotResult` (index.js lines 370–388): profit is computed only when
a reward is present, otherwise the field stays blank. -/
def saveLotResult (st : Store) (lotRow : Lot) (ok : Int) (tach : Nat)
    (game : List Char) (totalReward : Option Int) (now : Nat) : Store :=
  let lotCost := lotRow.totalCost
  let profit := totalReward.map (fun r => r - lotCost)
  { st with
    lotResults := st.lotResults ++
      [{ timestamp := now, lotId := lotRow.lotId, lotRow := lotRow.rowId,
         qty := lotRow.qty, totalCost := lotCost, ok := ok, tach := tach,
         game := game, totalReward := totalReward, profit := profit }]
    undoLog := st.undoLog ++ [⟨now, "ADD_LOT_RESULT".data⟩] }

/-! ## The due-date sweep (`runDueCheck`) -/

/-- Whether one sweep pass reminds an invite: pending, valid due date,
`now ≥ due`, and not already reminded on `now`'s calendar day
(index.js lines 461–471; an unparseable `last_reminded_at` is `none`). -/
def shouldRemind (now : Nat) (r : Invite) : Bool :=
  decide (lowerL r.status = "pending".data) &&
  (match r.due_date with
   | none => false
   | some d =>
     decide (d ≤ now) &&
     (match r.last_reminded_at with
      | none => true
      | some l => decide (dayOf l ≠ dayOf now)))

/-- Per-row effect of one sweep pass. -/
def sweepInvite (now : Nat) (r : Invite) : Invite :=
  if shouldRemind now r then { r with last_reminded_at := some now } else r

/-- `runDueCheck` (index.js lines 456–499): every reminded invite gets
`last_reminded_at := now`, and its conversation's session is overwritten
with an `ask_checkin_reward` question.  The third component is the list of
invites that were sent a reminder in this pass. -/
def runDueCheck (st : Store) (sess : Sess) (now : Nat) :
    Store × Sess × List Invite :=
  let reminded := st.invites.filter (shouldRemind now)
  ({ st with invites := st.invites.map (sweepInvite now) },
   reminded.foldl
     (fun s r =>
       setSession s r.chatId
         (.askCheckinReward (lowerL r.game) r.name r.email))
     sess,
   reminded)

/-! ## Follow-up answer handlers -/

/-- `handleWalletAnswer` (index.js lines 516–550): the reply text is
lower-cased, trimmed, and must be one of the three wallets, otherwise the
bot re-prompts and the session stays; on success the phone/lot row gets the
wallet and the wallet is debited, then the session is cleared.  A thrown
lookup error propagates before `clearSession`. -/
def handleWalletAnswer (st : Store) (text : List Char) (p : Pend)
    (now : Nat) : Store × Option Pend × Reply :=
  let w := trimList (lowerL text)
  match walletOf w with
  | none => (st, some p, .repromptWallet)
  | some wa =>
    match p with
    | .askWalletPhone code buyPrice =>
      match setPhoneWallet st code (walletName wa) with
      | .error _ => (st, some p, .errorReply)
      | .ok st1 =>
        (upsertWalletBalance st1 wa (-buyPrice) ("PHONE:".data ++ code)
          "buy phone".data now, none, .confirmPhoneWallet)
    | .askWalletLot rowId totalCost =>
      match findLotByRow st.lots rowId with
      | none => (st, some p, .errorReply)
      | some (i, lot) =>
        let st1 := { st with lots := st.lots.set i { lot with wallet := walletName wa } }
        (upsertWalletBalance st1 wa (-totalCost) ("LOT:".data ++ lot.lotId)
          "buy lot".data now, none, .confirmLotWallet)
    | .askCheckinReward _ _ _ => (st, some p, .silent)

/-- `handleCheckinAnswer` (index.js lines 552–564): unparseable amounts
re-prompt with the session unchanged; a parsed amount completes the invite
(a lookup error propagates before `clearSession`). -/
def handleCheckinAnswer (st : Store) (chatId : Nat) (text : List Char)
    (p : Pend) (now : Nat) : Store × Option Pend × Reply :=
  match p with
  | .askCheckinReward game name email =>
    match parseMoneyL text with
    | none => (st, some p, .repromptMoney)
    | some reward =>
      match markInviteDoneAndAddCheckin st chatId game name email reward now with
      | .error _ => (st, some p, .errorReply)
      | .ok st1 => (st1, none, .confirmCheckin)
  | _ => (st, some p, .silent)

/-- The session stage of `bot.on("message")` (index.js lines 577–592):
wallet questions go to `handleWalletAnswer`, the check-in question to
`handleCheckinAnswer`. -/
def handleAnswer (st : Store) (chatId : Nat) (text : List Char) (p : Pend)
    (now : Nat) : Store × Option Pend × Reply :=
  match p with
  | .askWalletPhone _ _ | .askWalletLot _ _ => handleWalletAnswer st text p now
  | .askCheckinReward _ _ _ => handleCheckinAnswer st chatId text p now

/-- The phone-buy branch (index.js lines 841–856): create the PHONES row
and unconditionally overwrite the conversation's session with the wallet
question. -/
def phoneBuyBranch (st : Store) (sess : Sess) (chatId : Nat)
    (phoneCode : List Char) (buyPrice : Int) (now : Nat) : Store × Sess :=
  (createPhone st chatId phoneCode buyPrice now,
   setSession sess chatId (.askWalletPhone phoneCode buyPrice))

/-- The `mua` branch (index.js lines 767–792): create the LOTS row, look
the latest lot back up, and unconditionally overwrite the session with the
wallet question. -/
def lotBuyBranch (st : Store) (sess : Sess) (chatId : Nat) (qty : Nat)
    (totalCost : Int) (now : Nat) : Store × Sess :=
  let st1 := createLot st chatId qty totalCost now
  match getLatestLot st1 with
  | none => (st1, sess)
  | some (_, lotRow) =>
    (st1, setSession sess chatId (.askWalletLot lotRow.rowId totalCost))

/-! ## The message router (token shapes and dispatch) -/

/-- Word splitter for `raw.split(/\s+/)` on trimmed input. -/
def wordsGo : List Char → List Char → List (List Char)
  | acc, [] => if acc = [] then [] else [acc.reverse]
  | acc, c :: cs =>
    if isWsC c then
      if acc = [] then wordsGo [] cs else acc.reverse :: wordsGo [] cs
    else wordsGo (c :: acc) cs

def wordsOf (l : List Char) : List (List Char) := wordsGo [] l

/-- `parseCommand`: `String(text).trim().split(/\s+/)` (splitting the empty
string yields `[""]`). -/
def tokensOf (l : List Char) : List (List Char) :=
  let t := trimList l
  if t = [] then [[]] else wordsOf t

/-- `text.startsWith(prefix)`. -/
def startsWithL (p l : List Char) : Bool := decide (l.take p.length = p)

/-- `/^[a-z0-9]+$/i.test(tok)`. -/
def alnumTok (l : List Char) : Bool :=
  decide (l ≠ []) &&
  l.all (fun c => isDigitC c || isLowerAlpha c || isUpperAlpha c)

/-- `/^(\d+)may$/.test(tok)` (the token is already lower-cased). -/
def isMayTok (l : List Char) : Bool :=
  decide ((splitDigits l).1 ≠ []) && decide ((splitDigits l).2 = "may".data)

/-- `tok.match(/^([a-z]+)(\d+(\.\d+)?k?)$/i)`: letters then a money-shaped
number, both returned. -/
def channelAmountTok (l : List Char) : Option (List Char × List Char) :=
  let ls := l.takeWhile (fun c => isLowerAlpha c || isUpperAlpha c)
  let rest := l.dropWhile (fun c => isLowerAlpha c || isUpperAlpha c)
  if ls ≠ [] ∧ (matchShape rest).isSome then some (ls, rest) else none

/-- The six reserved channel keywords of claim C6. -/
inductive Kw where
  | dabong
  | hopqua
  | qr
  | them
  | chinh
  | mua
deriving DecidableEq

/-- Which reserved keyword (if any) a lower-cased first token is. -/
def kwTarget (cmd : List Char) : Option Kw :=
  if cmd = "dabong".data then some .dabong
  else if cmd = "hopqua".data then some .hopqua
  else if cmd = "qr".data then some .qr
  else if cmd = "them".data then some .them
  else if cmd = "chinh".data then some .chinh
  else if cmd = "mua".data then some .mua
  else none

/-- Which branch of the message handler an inbound text reaches. -/
inductive Dispatch where
  | sessionAnswer (p : Pend)
  | slashStart
  | slashHelp
  | slashBaocao
  | slashPending
  | slashUndo
  | kw (k : Kw)
  | lotResultError
  | lotResult
  | phoneBuy
  | phoneOk
  | notUnderstood
deriving DecidableEq

/-- Lot-result pattern B: `5may hh800k tach1` (channel+amount compound
token, a `tach` token in third or fourth position). -/
def lotCaseB (t1 t2 t3 : List Char) : Prop :=
  (channelAmountTok t1).isSome = true ∧
    (startsWithL "tach".data t2 = true ∨ startsWithL "tach".data t3 = true)

instance (t1 t2 t3 : List Char) : Decidable (lotCaseB t1 t2 t3) := by
  unfold lotCaseB
  infer_instance

/-- Lot-result pattern A: `4may hq ok tach1`. -/
def lotCaseA (t1 t2 t3 : List Char) : Prop :=
  (t1 = "hq".data ∨ t1 = "qr".data ∨ t1 = "db".data) ∧ t2 = "ok".data ∧
    startsWithL "tach".data t3 = true

instance (t1 t2 t3 : List Char) : Decidable (lotCaseA t1 t2 t3) := by
  unfold lotCaseA
  infer_instance

/-- Phone-buy guard: exactly two tokens, money-parsing second token,
alphanumeric first token. -/
def phoneBuyCond (parts : List (List Char)) (cmd : List Char) : Prop :=
  parts.length = 2 ∧ (parseMoneyTok (parts.get? 1)).isSome = true ∧
    alnumTok cmd = true

instance (parts : List (List Char)) (cmd : List Char) :
    Decidable (phoneBuyCond parts cmd) := by
  unfold phoneBuyCond
  infer_instance

/-- Phone-resolve guard: at least three tokens, alphanumeric first token,
second token `ok`. -/
def phoneOkCond (parts : List (List Char)) (cmd t1 : List Char) : Prop :=
  3 ≤ parts.length ∧ alnumTok cmd = true ∧ t1 = "ok".data

instance (parts : List (List Char)) (cmd t1 : List Char) :
    Decidable (phoneOkCond parts cmd t1) := by
  unfold phoneOkCond
  infer_instance

/-- Branch classification of `bot.on("message")` in src/index.js
(lines 573–886).  `lotsEmpty` abstracts whether `getLatestLot` throws in
the `Nmay` branch (it is called before the pattern checks there). -/
def dispatchIndex (lotsEmpty : Bool) (sess : Option Pend) (text : List Char) :
    Dispatch :=
  match sess with
  | some p => .sessionAnswer p
  | none =>
    if startsWithL "/start".data text then .slashStart
    else if startsWithL "/help".data text then .slashHelp
    else if startsWithL "/baocao".data text then .slashBaocao
    else if startsWithL "/pending".data text then .slashPending
    else if startsWithL "/undo".data text then .slashUndo
    else
      let parts := tokensOf text
      let cmd := lowerL (parts.headD [])
      let t1 := lowerL (parts.getD 1 [])
      let t2 := lowerL (parts.getD 2 [])
      let t3 := lowerL (parts.getD 3 [])
      if cmd = "dabong".data ∨ cmd = "db".data then .kw .dabong
      else if cmd = "hopqua".data ∨ cmd = "hq".data then .kw .hopqua
      else if cmd = "qr".data then .kw .qr
      else if cmd = "them".data then .kw .them
      else if cmd = "chinh".data then .kw .chinh
      else if cmd = "mua".data then .kw .mua
      else if isMayTok cmd then
        if lotsEmpty then .lotResultError
        else if lotCaseB t1 t2 t3 then .lotResult
        else if lotCaseA t1 t2 t3 then .lotResult
        else if phoneBuyCond parts cmd then .phoneBuy
        else if phoneOkCond parts cmd t1 then .phoneOk
        else .notUnderstood
      else if phoneBuyCond parts cmd then .phoneBuy
      else if phoneOkCond parts cmd t1 then .phoneOk
      else .notUnderstood

/-- Branch classification of `bot.on("message")` in src/unnamed/part_000
(lines 512–809): there the phone-buy and phone-resolve branches are tried
before the `mua` branch and the `Nmay` lot-result branch. -/
def dispatchPart000 (lotsEmpty : Bool) (sess : Option Pend)
    (text : List Char) : Dispatch :=
  match sess with
  | some p => .sessionAnswer p
  | none =>
    if startsWithL "/start".data text then .slashStart
    else if startsWithL "/help".data text then .slashHelp
    else if startsWithL "/baocao".data text then .slashBaocao
    else if startsWithL "/pending".data text then .slashPending
    else if startsWithL "/undo".data text then .slashUndo
    else
      let parts := tokensOf text
      let cmd := lowerL (parts.headD [])
      let t1 := lowerL (parts.getD 1 [])
      let t2 := lowerL (parts.getD 2 [])
      let t3 := lowerL (parts.getD 3 [])
      if cmd = "dabong".data ∨ cmd = "db".data then .kw .dabong
      else if cmd = "hopqua".data ∨ cmd = "hq".data then .kw .hopqua
      else if cmd = "qr".data then .kw .qr
      else if cmd = "them".data then .kw .them
      else if cmd = "chinh".data then .kw .chinh
      else if phoneBuyCond parts cmd then .phoneBuy
      else if phoneOkCond parts cmd t1 then .phoneOk
      else if cmd = "mua".data then .kw .mua
      else if isMayTok cmd then
        if lotsEmpty then .lotResultError
        else if lotCaseB t1 t2 t3 then .lotResult
        else if lotCaseA t1 t2 t3 then .lotResult
        else .notUnderstood
      else .notUnderstood

/-! ## Exact integer evaluation of the rounded rational values

`Rat` arithmetic does not reduce in the kernel, so concrete evaluations of
`moneyValue` go through an equivalent `Nat` computation, justified once by
`jsRound_natCast_div`. -/

/-- `⌊n / d + 1/2⌋` as a natural-number computation (`n, d ≥ 0`). -/
def jsRoundN (n d : ℕ) : ℕ := (2 * n + d) / (2 * d)

/-- The decimal `ds.fs` scaled by `10 ^ fs.length` (an integer). -/
def scaledNum (ds fs : List Char) : ℕ :=
  natOfDigits ds * 10 ^ fs.length + natOfDigits fs

theorem jsRound_natCast_div (n d : ℕ) (hd : 0 < d) :
    jsRound ((n : ℚ) / (d : ℚ)) = (jsRoundN n d : ℤ) := by
  have hd' : ((d : ℚ)) ≠ 0 := by positivity
  have h : (n : ℚ) / (d : ℚ) + 1 / 2 = ((2 * n + d : ℕ) : ℚ) / ((2 * d : ℕ) : ℚ) := by
    push_cast
    field_simp
    ring
  unfold jsRound jsRoundN
  rw [h, Rat.floor_natCast_div_natCast]
  exact (Int.ofNat_ediv _ _).symm

theorem decValue_eq_div (ds fs : List Char) :
    decValue ds fs = (scaledNum ds fs : ℚ) / ((10 ^ fs.length : ℕ) : ℚ) := by
  have h10 : ((10 ^ fs.length : ℕ) : ℚ) ≠ 0 := by positivity
  unfold decValue scaledNum
  push_cast
  field_simp

theorem moneyValue_eq (ds fs : List Char) (k : Bool) :
    moneyValue ds fs k =
      (jsRoundN ((if k then 1000 else 1) * scaledNum ds fs) (10 ^ fs.length) : ℤ) := by
  have hd : 0 < 10 ^ fs.length := by positivity
  cases k with
  | false =>
    have h : decValue ds fs =
        ((1 * scaledNum ds fs : ℕ) : ℚ) / ((10 ^ fs.length : ℕ) : ℚ) := by
      rw [decValue_eq_div]
      push_cast
      ring
    simp only [moneyValue, if_neg (by decide : ¬ (false = true)), h]
    exact jsRound_natCast_div _ _ hd
  | true =>
    have h : decValue ds fs * 1000 =
        ((1000 * scaledNum ds fs : ℕ) : ℚ) / ((10 ^ fs.length : ℕ) : ℚ) := by
      rw [decValue_eq_div]
      have h10 : ((10 ^ fs.length : ℕ) : ℚ) ≠ 0 := by positivity
      push_cast
      field_simp
      ring
    simp only [moneyValue, if_pos rfl, h]
    exact jsRound_natCast_div _ _ hd

/-! ## Character-class facts -/

theorem digit_bounds {c : Char} (h : isDigitC c = true) :
    48 ≤ c.toNat ∧ c.toNat ≤ 57 := by
  simpa [isDigitC] using h

theorem lowerChar_of_digit {c : Char} (h : isDigitC c = true) : lowerChar c = c := by
  have hb := digit_bounds h
  unfold lowerChar
  rw [if_neg]
  omega

theorem lowerChar_of_plain {c : Char} (h : plainChar c = true) : lowerChar c = c := by
  simp only [plainChar, Bool.or_eq_true, beq_iff_eq] at h
  rcases h with (h | rfl) | rfl
  · exact lowerChar_of_digit h
  · decide
  · decide

theorem isWsC_of_plain {c : Char} (h : plainChar c = true) : isWsC c = false := by
  simp only [plainChar, Bool.or_eq_true, beq_iff_eq] at h
  rcases h with (h | rfl) | rfl
  · have hb := digit_bounds h
    simp only [isWsC, Bool.or_eq_false_iff, Bool.and_eq_false_iff,
      decide_eq_false_iff_not]
    omega
  · decide
  · decide

theorem ne_comma_of_plain {c : Char} (h : plainChar c = true) : c ≠ ',' := by
  simp only [plainChar, Bool.or_eq_true, beq_iff_eq] at h
  rintro rfl
  rcases h with (h | h) | h <;> simp [isDigitC] at h

theorem plain_of_digit {c : Char} (h : isDigitC c = true) : plainChar c = true := by
  simp [plainChar, h]

/-! ## List helper lemmas -/

theorem dropWhile_eq_self_of {p : Char → Bool} {l : List Char}
    (h : ∀ c ∈ l, p c = false) : l.dropWhile p = l := by
  cases l with
  | nil => rfl
  | cons c cs => simp [List.dropWhile, h c (List.mem_cons_self c cs)]

theorem trimList_eq_self {l : List Char} (h : ∀ c ∈ l, isWsC c = false) :
    trimList l = l := by
  unfold trimList
  rw [dropWhile_eq_self_of h, dropWhile_eq_self_of, List.reverse_reverse]
  intro c hc
  exact h c (List.mem_reverse.mp hc)

theorem map_eq_self_of {f : Char → Char} {l : List Char}
    (h : ∀ c ∈ l, f c = c) : l.map f = l := by
  induction l with
  | nil => rfl
  | cons c cs ih =>
    simp only [List.map_cons, h c (List.mem_cons_self c cs), List.cons.injEq, true_and]
    exact ih fun x hx => h x (List.mem_cons_of_mem c hx)

theorem cleanMoney_eq_self {l : List Char} (h : ∀ c ∈ l, plainChar c = true) :
    cleanMoney l = l := by
  unfold cleanMoney
  rw [trimList_eq_self (fun c hc => isWsC_of_plain (h c hc)),
    map_eq_self_of (fun c hc => lowerChar_of_plain (h c hc)),
    List.filter_eq_self.mpr]
  intro c hc
  simpa using ne_comma_of_plain (h c hc)

/-! ## `splitDigits` and the shape characterization -/

theorem splitDigits_eq (l : List Char) :
    splitDigits l = (l.takeWhile isDigitC, l.dropWhile isDigitC) := by
  induction l with
  | nil => rfl
  | cons c cs ih =>
    by_cases h : isDigitC c = true
    · simp [splitDigits, h, ih, List.takeWhile_cons, List.dropWhile_cons]
    · simp only [Bool.not_eq_true] at h
      simp [splitDigits, h, List.takeWhile_cons, List.dropWhile_cons]

theorem splitDigits_append_digits {ds : List Char} (r : List Char)
    (h : ds.all isDigitC = true) :
    splitDigits (ds ++ r) = (ds ++ (splitDigits r).1, (splitDigits r).2) := by
  induction ds with
  | nil => simp
  | cons c cs ih =>
    simp only [List.all_cons, Bool.and_eq_true] at h
    simp [splitDigits, h.1, ih h.2]

theorem ktail_true : ktail true = ['k'] := rfl

theorem ktail_false : ktail false = [] := rfl

theorem mem_ktail {c : Char} {k : Bool} (h : c ∈ ktail k) : c = 'k' := by
  cases k <;> simp [ktail] at h
  exact h

theorem shapeP_chars {l ds fs : List Char} {k : Bool} (hp : ShapeP l ds fs k) :
    ∀ c ∈ l, plainChar c = true := by
  obtain ⟨_, hds, hrest⟩ := hp
  intro c hc
  rcases hrest with ⟨_, rfl⟩ | ⟨_, hfs, rfl⟩
  · rcases List.mem_append.mp hc with h | h
    · exact plain_of_digit (List.all_eq_true.mp hds c h)
    · rw [mem_ktail h]
      decide
  · rcases List.mem_append.mp hc with h | h
    · exact plain_of_digit (List.all_eq_true.mp hds c h)
    · rcases List.mem_cons.mp h with rfl | h
      · decide
      · rcases List.mem_append.mp h with h | h
        · exact plain_of_digit (List.all_eq_true.mp hfs c h)
        · rw [mem_ktail h]
          decide

theorem isDigitC_k : isDigitC 'k' = false := by decide

theorem isDigitC_dot : isDigitC '.' = false := by decide

theorem splitDigits_nil : splitDigits [] = ([], []) := rfl

theorem splitDigits_k : splitDigits ['k'] = ([], ['k']) := by
  simp [splitDigits, isDigitC_k]

theorem takeWhile_all_append {ds : List Char} (r : List Char)
    (h : ds.all isDigitC = true) :
    (ds ++ r).takeWhile isDigitC = ds ++ (splitDigits r).1 ∧
      (ds ++ r).dropWhile isDigitC = (splitDigits r).2 := by
  have hs := splitDigits_append_digits r h
  rw [splitDigits_eq] at hs
  exact ⟨congrArg Prod.fst hs, congrArg Prod.snd hs⟩

theorem mem_of_getLast?_eq {l : List Char} {a : Char} (h : l.getLast? = some a) :
    a ∈ l := by
  have hne : l ≠ [] := by rintro rfl; simp at h
  rw [List.getLast?_eq_getLast_of_ne_nil hne] at h
  simp only [Option.some.injEq] at h
  exact h ▸ List.getLast_mem hne

theorem shapeP_of_matchShape {l ds fs : List Char} {k : Bool}
    (h : matchShape l = some (ds, fs, k)) : ShapeP l ds fs k := by
  have hl := (List.takeWhile_append_dropWhile (p := isDigitC) (l := l)).symm
  have htw : (l.takeWhile isDigitC).all isDigitC = true :=
    List.all_eq_true.mpr fun c hc => List.mem_takeWhile_imp hc
  simp only [matchShape, splitDigits_eq] at h
  by_cases h1 : l.takeWhile isDigitC = []
  · rw [if_pos h1] at h
    exact absurd h (by simp)
  rw [if_neg h1] at h
  rcases hdw : l.dropWhile isDigitC with _ | ⟨c, t⟩ <;> rw [hdw] at h hl
  · rw [if_pos rfl] at h
    simp only [Option.some.injEq, Prod.mk.injEq] at h
    obtain ⟨rfl, rfl, rfl⟩ := h
    exact ⟨h1, htw, Or.inl ⟨rfl, by simpa [ktail] using hl⟩⟩
  rw [if_neg (by simp)] at h
  by_cases h2 : (c :: t : List Char) = ['k']
  · rw [if_pos h2] at h
    simp only [Option.some.injEq, Prod.mk.injEq] at h
    obtain ⟨rfl, rfl, rfl⟩ := h
    rw [h2] at hl
    exact ⟨h1, htw, Or.inl ⟨rfl, by simpa [ktail] using hl⟩⟩
  rw [if_neg h2] at h
  by_cases h3 : (c :: t : List Char).head? = some '.'
  swap
  · rw [if_neg h3] at h
    exact absurd h (by simp)
  rw [if_pos h3] at h
  simp only [List.head?_cons, Option.some.injEq] at h3
  subst h3
  simp only [List.tail_cons] at h
  have htw2 : (t.takeWhile isDigitC).all isDigitC = true :=
    List.all_eq_true.mpr fun x hx => List.mem_takeWhile_imp hx
  have hl2 := (List.takeWhile_append_dropWhile (p := isDigitC) (l := t)).symm
  by_cases h4 : t.takeWhile isDigitC = []
  · rw [if_pos h4] at h
    exact absurd h (by simp)
  rw [if_neg h4] at h
  rcases hdw2 : t.dropWhile isDigitC with _ | ⟨c2, t2⟩ <;> rw [hdw2] at h hl2
  · rw [if_pos rfl] at h
    simp only [Option.some.injEq, Prod.mk.injEq] at h
    obtain ⟨rfl, rfl, rfl⟩ := h
    refine ⟨h1, htw, Or.inr ⟨h4, htw2, ?_⟩⟩
    simp only [ktail_false, List.append_nil]
    rw [← (by simpa using hl2 : t = List.takeWhile isDigitC t)]
    exact hl
  rw [if_neg (by simp)] at h
  by_cases h5 : (c2 :: t2 : List Char) = ['k']
  · rw [if_pos h5] at h
    simp only [Option.some.injEq, Prod.mk.injEq] at h
    obtain ⟨rfl, rfl, rfl⟩ := h
    refine ⟨h1, htw, Or.inr ⟨h4, htw2, ?_⟩⟩
    simp only [ktail_true]
    rw [← (hl2.trans (congrArg _ h5) : t = List.takeWhile isDigitC t ++ ['k'])]
    exact hl
  · rw [if_neg h5] at h
    exact absurd h (by simp)

theorem matchShape_of_shapeP {l ds fs : List Char} {k : Bool}
    (h : ShapeP l ds fs k) : matchShape l = some (ds, fs, k) := by
  obtain ⟨hne, hds, hrest⟩ := h
  rcases hrest with ⟨rfl, rfl⟩ | ⟨hfs, hfsd, rfl⟩
  · cases k with
    | false =>
      simp only [ktail_false, List.append_nil]
      simp only [matchShape, splitDigits_eq]
      have hsp := takeWhile_all_append [] hds
      simp only [List.append_nil] at hsp
      rw [hsp.1, hsp.2]
      simp [splitDigits_nil, hne]
    | true =>
      simp only [ktail_true]
      simp only [matchShape, splitDigits_eq]
      have hsp := takeWhile_all_append ['k'] hds
      rw [hsp.1, hsp.2]
      simp [splitDigits_k, hne]
  · simp only [matchShape, splitDigits_eq]
    have hsp := takeWhile_all_append ('.' :: (fs ++ ktail k)) hds
    rw [hsp.1, hsp.2]
    have hdot : splitDigits ('.' :: (fs ++ ktail k)) = ([], '.' :: (fs ++ ktail k)) := by
      simp [splitDigits, show isDigitC '.' = false from rfl]
    rw [hdot]
    simp only [List.append_nil, List.tail_cons]
    have hsp2 := takeWhile_all_append (ktail k) hfsd
    rw [hsp2.1, hsp2.2]
    cases k with
    | false => simp [ktail_false, splitDigits_nil, hne, hfs]
    | true => simp [ktail_true, splitDigits_k, hne, hfs]

theorem shapeP_of_specShape {l ds fs : List Char} {k : Bool}
    (h : specShape l = some (ds, fs, k)) : ShapeP l ds fs k := by
  simp only [specShape] at h
  by_cases hk : l.getLast? = some 'k'
  all_goals first
    | rw [if_pos hk] at h
    | rw [if_neg hk] at h
  case pos =>
    have hlk : l.dropLast ++ ['k'] = l := List.dropLast_append_getLast? 'k' hk
    have hb := (List.takeWhile_append_dropWhile (p := isDigitC) (l := l.dropLast)).symm
    have htw : (l.dropLast.takeWhile isDigitC).all isDigitC = true :=
      List.all_eq_true.mpr fun c hc => List.mem_takeWhile_imp hc
    by_cases h1 : l.dropLast.takeWhile isDigitC = []
    · rw [if_pos h1] at h
      exact absurd h (by simp)
    rw [if_neg h1] at h
    rcases hdw : l.dropLast.dropWhile isDigitC with _ | ⟨c, t⟩ <;> rw [hdw] at h hb
    · rw [if_pos rfl] at h
      simp only [Option.some.injEq, Prod.mk.injEq] at h
      obtain ⟨rfl, rfl, rfl⟩ := h
      rw [List.append_nil] at hb
      refine ⟨h1, htw, Or.inl ⟨rfl, ?_⟩⟩
      simp only [ktail_true]
      calc l = l.dropLast ++ ['k'] := hlk.symm
        _ = List.takeWhile isDigitC l.dropLast ++ ['k'] := by conv_lhs => rw [hb]
    rw [if_neg (by simp)] at h
    by_cases h2 : ((c :: t : List Char).head? = some '.' ∧
        (c :: t : List Char).tail ≠ [] ∧ ((c :: t : List Char).tail.all isDigitC) = true)
    · rw [if_pos h2] at h
      obtain ⟨hc, htne, htd⟩ := h2
      simp only [List.head?_cons, Option.some.injEq] at hc
      subst hc
      simp only [List.tail_cons] at htne htd h
      simp only [Option.some.injEq, Prod.mk.injEq] at h
      obtain ⟨rfl, rfl, rfl⟩ := h
      refine ⟨h1, htw, Or.inr ⟨htne, htd, ?_⟩⟩
      simp only [ktail_true]
      calc l = l.dropLast ++ ['k'] := hlk.symm
        _ = (List.takeWhile isDigitC l.dropLast ++ '.' :: t) ++ ['k'] := by
              conv_lhs => rw [hb]
        _ = List.takeWhile isDigitC l.dropLast ++ '.' :: (t ++ ['k']) := by simp
    · rw [if_neg h2] at h
      exact absurd h (by simp)
  case neg =>
    have hb := (List.takeWhile_append_dropWhile (p := isDigitC) (l := l)).symm
    have htw : (l.takeWhile isDigitC).all isDigitC = true :=
      List.all_eq_true.mpr fun c hc => List.mem_takeWhile_imp hc
    by_cases h1 : l.takeWhile isDigitC = []
    · rw [if_pos h1] at h
      exact absurd h (by simp)
    rw [if_neg h1] at h
    rcases hdw : l.dropWhile isDigitC with _ | ⟨c, t⟩ <;> rw [hdw] at h hb
    · rw [if_pos rfl] at h
      simp only [Option.some.injEq, Prod.mk.injEq] at h
      obtain ⟨rfl, rfl, rfl⟩ := h
      rw [List.append_nil] at hb
      refine ⟨h1, htw, Or.inl ⟨rfl, ?_⟩⟩
      simp only [ktail_false, List.append_nil]
      exact hb
    rw [if_neg (by simp)] at h
    by_cases h2 : ((c :: t : List Char).head? = some '.' ∧
        (c :: t : List Char).tail ≠ [] ∧ ((c :: t : List Char).tail.all isDigitC) = true)
    · rw [if_pos h2] at h
      obtain ⟨hc, htne, htd⟩ := h2
      simp only [List.head?_cons, Option.some.injEq] at hc
      subst hc
      simp only [List.tail_cons] at htne htd h
      simp only [Option.some.injEq, Prod.mk.injEq] at h
      obtain ⟨rfl, rfl, rfl⟩ := h
      refine ⟨h1, htw, Or.inr ⟨htne, htd, ?_⟩⟩
      simp only [ktail_false, List.append_nil]
      exact hb
    · rw [if_neg h2] at h
      exact absurd h (by simp)

theorem specShape_of_shapeP {l ds fs : List Char} {k : Bool}
    (h : ShapeP l ds fs k) : specShape l = some (ds, fs, k) := by
  obtain ⟨hne, hds, hrest⟩ := h
  have hdsk : ds.getLast? ≠ some 'k' := by
    intro hg
    have hmem : 'k' ∈ ds := mem_of_getLast?_eq hg
    have := digit_bounds (List.all_eq_true.mp hds _ hmem)
    rw [show ('k' : Char).toNat = 107 from rfl] at this
    omega
  rcases hrest with ⟨rfl, rfl⟩ | ⟨hfs, hfsd, rfl⟩
  · cases k with
    | false =>
      simp only [ktail_false, List.append_nil]
      simp only [specShape, if_neg hdsk]
      have hsp := takeWhile_all_append [] hds
      simp only [List.append_nil] at hsp
      rw [hsp.1, hsp.2]
      simp [splitDigits_nil, hne]
    | true =>
      simp only [ktail_true]
      have hlast : (ds ++ ['k']).getLast? = some 'k' := List.getLast?_concat ds
      simp only [specShape, if_pos hlast, List.dropLast_concat]
      have hsp := takeWhile_all_append [] hds
      simp only [List.append_nil] at hsp
      rw [hsp.1, hsp.2]
      simp [splitDigits_k, splitDigits_nil, hne]
  · have hdot : splitDigits ('.' :: fs) = ([], '.' :: fs) := by
      simp [splitDigits, show isDigitC '.' = false from rfl]
    cases k with
    | false =>
      simp only [ktail_false, List.append_nil]
      have hlast : (ds ++ '.' :: fs).getLast? ≠ some 'k' := by
        rw [List.getLast?_append_of_ne_nil ds (by simp)]
        intro hg
        rcases List.mem_cons.mp (mem_of_getLast?_eq hg) with hdot2 | hmem
        · exact (by decide : ('k' : Char) ≠ '.') hdot2
        · have := digit_bounds (List.all_eq_true.mp hfsd _ hmem)
          rw [show ('k' : Char).toNat = 107 from rfl] at this
          omega
      simp only [specShape, if_neg hlast]
      have hsp := takeWhile_all_append ('.' :: fs) hds
      rw [hdot] at hsp
      rw [hsp.1, hsp.2]
      simp only [List.append_nil]
      simp [hne, hfs, hfsd]
    | true =>
      simp only [ktail_true]
      have hl : ds ++ '.' :: (fs ++ ['k']) = (ds ++ '.' :: fs) ++ ['k'] := by
        simp
      rw [hl]
      have hlast : ((ds ++ '.' :: fs) ++ ['k']).getLast? = some 'k' :=
        List.getLast?_concat _
      simp only [specShape, if_pos hlast, List.dropLast_concat]
      have hsp := takeWhile_all_append ('.' :: fs) hds
      rw [hdot] at hsp
      rw [hsp.1, hsp.2]
      simp only [List.append_nil]
      simp [hne, hfs, hfsd]

theorem matchShape_eq_specShape (l : List Char) : matchShape l = specShape l := by
  rcases hm : matchShape l with _ | v
  · rcases hs : specShape l with _ | w
    · rfl
    · obtain ⟨ds, fs, k⟩ := w
      exact absurd (matchShape_of_shapeP (shapeP_of_specShape hs)) (by simp [hm])
  · obtain ⟨ds, fs, k⟩ := v
    exact (specShape_of_shapeP (shapeP_of_matchShape hm)).symm

/-! ## Lower-casing is idempotent; `normalizeGameToken` facts -/

theorem toNat_ofNat_small {n : Nat} (h : n < 55296) : (Char.ofNat n).toNat = n := by
  have hv : n.isValidChar := Or.inl h
  simp [Char.ofNat, Char.toNat, hv, Char.ofNatAux, UInt32.toNat, BitVec.toNat_ofNatLt]

theorem lowerChar_fix {c : Char} (h : ¬ (65 ≤ c.toNat ∧ c.toNat ≤ 90)) :
    lowerChar c = c := by
  unfold lowerChar
  exact if_neg h

theorem lowerChar_toNat (c : Char) :
    (lowerChar c).toNat = if 65 ≤ c.toNat ∧ c.toNat ≤ 90 then c.toNat + 32 else c.toNat := by
  unfold lowerChar
  split
  · next h => exact toNat_ofNat_small (by omega)
  · rfl

theorem lowerChar_idem (c : Char) : lowerChar (lowerChar c) = lowerChar c := by
  by_cases h : 65 ≤ c.toNat ∧ c.toNat ≤ 90
  · apply lowerChar_fix
    rw [lowerChar_toNat, if_pos h]
    omega
  · rw [lowerChar_fix h]
    exact lowerChar_fix h

theorem lowerL_idem (l : List Char) : lowerL (lowerL l) = lowerL l := by
  unfold lowerL
  rw [List.map_map]
  exact List.map_congr_left fun a _ => lowerChar_idem a

theorem lowerStr_idem (s : String) : lowerStr (lowerStr s) = lowerStr s :=
  congrArg String.mk (lowerL_idem s.data)

theorem string_data_eq_iff {s t : String} : s = t ↔ s.data = t.data :=
  ⟨congrArg String.data, fun h => by cases s; cases t; exact congrArg String.mk h⟩

theorem normalizeGameTokenL_idem (t : List Char) :
    normalizeGameTokenL (normalizeGameTokenL t) = normalizeGameTokenL t := by
  by_cases h1 : lowerL t = "hopqua".data ∨ lowerL t = "hq".data ∨ lowerL t = "hh".data
  · rw [show normalizeGameTokenL t = "hq".data from by
      simp only [normalizeGameTokenL]; rw [if_pos h1]]
    decide
  by_cases h2 : lowerL t = "qr".data
  · rw [show normalizeGameTokenL t = "qr".data from by
      simp only [normalizeGameTokenL]; rw [if_neg h1, if_pos h2]]
    decide
  by_cases h3 : lowerL t = "dabong".data ∨ lowerL t = "db".data
  · rw [show normalizeGameTokenL t = "db".data from by
      simp only [normalizeGameTokenL]; rw [if_neg h1, if_neg h2, if_pos h3]]
    decide
  · rw [show normalizeGameTokenL t = lowerL t from by
      simp only [normalizeGameTokenL]; rw [if_neg h1, if_neg h2, if_neg h3]]
    simp only [normalizeGameTokenL]
    rw [lowerL_idem, if_neg h1, if_neg h2, if_neg h3]

/-! ## `bestBy`, `enum` and `set` facts (stable-sort-head selection) -/

theorem bestBy_go_spec {α : Type} (key : α → Nat) (l : List (Nat × α))
    (b : Nat × α) :
    ∃ q, l.foldl
        (fun best p =>
          match best with
          | none => some p
          | some b => if key b.2 < key p.2 then some p else some b)
        (some b) = some q ∧
      (q = b ∨ q ∈ l) ∧ key b.2 ≤ key q.2 ∧ ∀ x ∈ l, key x.2 ≤ key q.2 := by
  induction l generalizing b with
  | nil => exact ⟨b, rfl, Or.inl rfl, le_refl _, by simp⟩
  | cons p l ih =>
    by_cases hlt : key b.2 < key p.2
    · obtain ⟨q, hq, hmem, hge, hall⟩ := ih p
      refine ⟨q, by simpa [hlt] using hq, ?_, ?_, ?_⟩
      · rcases hmem with rfl | h
        · exact Or.inr (List.mem_cons_self _ _)
        · exact Or.inr (List.mem_cons_of_mem _ h)
      · exact le_trans (le_of_lt hlt) hge
      · intro x hx
        rcases List.mem_cons.mp hx with rfl | h
        · exact hge
        · exact hall x h
    · obtain ⟨q, hq, hmem, hge, hall⟩ := ih b
      refine ⟨q, by simpa [hlt] using hq, ?_, hge, ?_⟩
      · rcases hmem with rfl | h
        · exact Or.inl rfl
        · exact Or.inr (List.mem_cons_of_mem _ h)
      · intro x hx
        rcases List.mem_cons.mp hx with rfl | h
        · exact le_trans (le_of_not_lt hlt) hge
        · exact hall x h

theorem bestBy_eq_none_iff {α : Type} (key : α → Nat) (l : List (Nat × α)) :
    bestBy key l = none ↔ l = [] := by
  cases l with
  | nil => simp [bestBy]
  | cons p l =>
    simp only [bestBy, List.foldl_cons]
    obtain ⟨q, hq, _, _, _⟩ := bestBy_go_spec key l p
    simp [hq]

theorem bestBy_spec {α : Type} {key : α → Nat} {l : List (Nat × α)}
    {q : Nat × α} (h : bestBy key l = some q) :
    q ∈ l ∧ ∀ x ∈ l, key x.2 ≤ key q.2 := by
  cases l with
  | nil => simp [bestBy] at h
  | cons p l =>
    simp only [bestBy, List.foldl_cons] at h
    obtain ⟨q', hq', hmem, hge, hall⟩ := bestBy_go_spec key l p
    rw [hq'] at h
    obtain rfl : q' = q := by injection h
    refine ⟨?_, ?_⟩
    · rcases hmem with rfl | hm
      · exact List.mem_cons_self _ _
      · exact List.mem_cons_of_mem _ hm
    · intro x hx
      rcases List.mem_cons.mp hx with rfl | hm
      · exact hge
      · exact hall x hm

theorem mem_enum_get? {α : Type} {l : List α} {p : Nat × α} (h : p ∈ l.enum) :
    l.get? p.1 = some p.2 := by
  obtain ⟨i, x⟩ := p
  exact List.mk_mem_enum_iff_get?.mp h

theorem get?_mem_enum {α : Type} {l : List α} {i : Nat} {x : α}
    (h : l.get? i = some x) : (i, x) ∈ l.enum :=
  List.mk_mem_enum_iff_get?.mpr h

theorem mem_set_cases {α : Type} {l : List α} {i : Nat} {v x : α}
    (h : x ∈ l.set i v) : x = v ∨ ∃ j, j ≠ i ∧ l.get? j = some x := by
  obtain ⟨j, hj⟩ := List.mem_iff_get?.mp h
  by_cases hji : j = i
  · subst hji
    obtain ⟨hl, _⟩ := List.get?_eq_some.mp hj
    rw [List.length_set] at hl
    rw [List.get?_set_eq_of_lt _ hl] at hj
    exact Or.inl (by injection hj with h'; exact h'.symm)
  · rw [List.get?_set_ne _ _ (Ne.symm hji)] at hj
    exact Or.inr ⟨j, hji, hj⟩

/-! ## Selection lemmas for invites and phones -/

theorem selectInvite_eq_none_iff (rows : List Invite) (g n e : List Char) :
    selectInvite rows g n e = none ↔
      ∀ r ∈ rows, inviteMatches r g n e = false := by
  unfold selectInvite
  rw [bestBy_eq_none_iff, List.filter_eq_nil]
  constructor
  · intro h r hr
    obtain ⟨i, hi⟩ := List.mem_iff_get?.mp hr
    have := h (i, r) (get?_mem_enum hi)
    simpa using this
  · intro h p hp
    have hmem : p.2 ∈ rows := by
      have := mem_enum_get? hp
      exact List.mem_iff_get?.mpr ⟨p.1, this⟩
    simpa using h p.2 hmem

theorem selectInvite_spec {rows : List Invite} {g n e : List Char} {i : Nat}
    {t : Invite} (h : selectInvite rows g n e = some (i, t)) :
    rows.get? i = some t ∧ inviteMatches t g n e = true ∧
      ∀ r ∈ rows, inviteMatches r g n e = true →
        r.time_invited ≤ t.time_invited := by
  unfold selectInvite at h
  obtain ⟨hmem, hmax⟩ := bestBy_spec h
  rw [List.mem_filter] at hmem
  refine ⟨mem_enum_get? hmem.1, hmem.2, ?_⟩
  intro r hr hmatch
  obtain ⟨j, hj⟩ := List.mem_iff_get?.mp hr
  exact hmax (j, r) (List.mem_filter.mpr ⟨get?_mem_enum hj, hmatch⟩)

theorem selectPhone_spec {phones : List Phone} {code : List Char} {i : Nat}
    {t : Phone} (h : selectPhone phones code = some (i, t)) :
    phones.get? i = some t ∧ lowerL t.phoneCode = lowerL code ∧
      ∀ p ∈ phones, lowerL p.phoneCode = lowerL code →
        p.buyDate ≤ t.buyDate := by
  unfold selectPhone at h
  obtain ⟨hmem, hmax⟩ := bestBy_spec h
  rw [List.mem_filter] at hmem
  refine ⟨mem_enum_get? hmem.1, by simpa using hmem.2, ?_⟩
  intro p hp hcode
  obtain ⟨j, hj⟩ := List.mem_iff_get?.mp hp
  exact hmax (j, p) (List.mem_filter.mpr ⟨get?_mem_enum hj, by simpa using hcode⟩)

/-! ## Router token head lemmas -/

theorem wordsGo_acc_head {acc : List Char} (hacc : acc ≠ []) :
    ∀ cs, ∃ w ws, wordsGo acc cs = (acc.reverse ++ w) :: ws := by
  intro cs
  induction cs generalizing acc with
  | nil =>
    refine ⟨[], [], ?_⟩
    simp [wordsGo, hacc]
  | cons c cs ih =>
    by_cases hws : isWsC c = true
    · refine ⟨[], wordsGo [] cs, ?_⟩
      simp [wordsGo, hws, hacc]
    · obtain ⟨w, ws, hw⟩ := @ih (c :: acc) (by simp)
      refine ⟨c :: w, ws, ?_⟩
      rw [show wordsGo acc (c :: cs) = wordsGo (c :: acc) cs from by
        simp [wordsGo, hws], hw]
      simp

theorem dropWhile_append2 (p : Char → Bool) (xs ys : List Char) :
    List.dropWhile p (xs ++ ys) =
      if xs.dropWhile p = [] then ys.dropWhile p
      else xs.dropWhile p ++ ys := by
  induction xs with
  | nil => simp
  | cons c cs ih =>
    by_cases hc : p c = true
    · simpa [List.dropWhile_cons, hc] using ih
    · simp [List.dropWhile_cons, hc]

theorem trimList_cons_of_not_ws {c : Char} {cs : List Char}
    (h : isWsC c = false) : ∃ t, trimList (c :: cs) = c :: t := by
  unfold trimList
  rw [List.dropWhile_cons, h]
  simp only [Bool.false_eq_true, if_false, List.reverse_cons]
  rw [dropWhile_append2]
  by_cases hz : cs.reverse.dropWhile isWsC = []
  · rw [if_pos hz]
    refine ⟨[], ?_⟩
    simp [List.dropWhile_cons, h]
  · rw [if_neg hz]
    exact ⟨(cs.reverse.dropWhile isWsC).reverse, by simp⟩

theorem tokensOf_head_slash {text : List Char} {p : List Char}
    (h : startsWithL ('/' :: p) text = true) :
    ∃ w, (tokensOf text).headD [] = '/' :: w := by
  have hx : text.take ('/' :: p).length = '/' :: p := by simpa [startsWithL] using h
  obtain ⟨c, cs, rfl⟩ : ∃ c cs, text = c :: cs := by
    cases text with
    | nil => simp at hx
    | cons c cs => exact ⟨c, cs, rfl⟩
  obtain rfl : c = '/' := by
    simp only [List.length_cons, List.take_succ_cons] at hx
    injection hx
  obtain ⟨t, ht⟩ := @trimList_cons_of_not_ws '/' cs (by decide)
  unfold tokensOf
  rw [ht]
  simp only [reduceCtorEq, if_false]
  obtain ⟨w, ws, hw⟩ := @wordsGo_acc_head ['/'] (by simp) t
  rw [show wordsOf ('/' :: t) = wordsGo ['/'] t from by
    simp [wordsOf, wordsGo, show isWsC '/' = false from by decide]]
  rw [hw]
  exact ⟨w, rfl⟩

theorem kwTarget_slash (x : List Char) : kwTarget ('/' :: x) = none := by
  unfold kwTarget
  rw [if_neg (by simp), if_neg (by simp), if_neg (by simp), if_neg (by simp),
    if_neg (by simp), if_neg (by simp)]

theorem kwTarget_cases {cmd : List Char} {k : Kw} (h : kwTarget cmd = some k) :
    (cmd = "dabong".data ∧ k = .dabong) ∨ (cmd = "hopqua".data ∧ k = .hopqua) ∨
    (cmd = "qr".data ∧ k = .qr) ∨ (cmd = "them".data ∧ k = .them) ∨
    (cmd = "chinh".data ∧ k = .chinh) ∨ (cmd = "mua".data ∧ k = .mua) := by
  unfold kwTarget at h
  split_ifs at h <;> simp_all

/-! ## Claim theorems -/

/-- C9: channel-token normalization is a total function on strings and is
idempotent (`normalize (normalize x) = normalize x` for every string); it
maps `hopqua`, `hq`, `hh` (case-insensitively) to `"hq"`, `dabong`, `db` to
`"db"`, `qr` to `"qr"`, and passes every other token through lower-cased
but otherwise unchanged. -/
theorem c9_normalize_idempotent_total :
    (∀ s : String, normalizeGameToken (normalizeGameToken s) = normalizeGameToken s) ∧
    (∀ s : String,
      lowerStr s = "hopqua" ∨ lowerStr s = "hq" ∨ lowerStr s = "hh" →
      normalizeGameToken s = "hq") ∧
    (∀ s : String, lowerStr s = "qr" → normalizeGameToken s = "qr") ∧
    (∀ s : String, lowerStr s = "dabong" ∨ lowerStr s = "db" →
      normalizeGameToken s = "db") ∧
    (∀ s : String,
      lowerStr s ≠ "hopqua" → lowerStr s ≠ "hq" → lowerStr s ≠ "hh" →
      lowerStr s ≠ "qr" → lowerStr s ≠ "dabong" → lowerStr s ≠ "db" →
      normalizeGameToken s = lowerStr s) ∧
    normalizeGameToken "HopQua" = "hq" ∧ normalizeGameToken "hq" = "hq" ∧
    normalizeGameToken "hh" = "hq" ∧ normalizeGameToken "DaBong" = "db" ∧
    normalizeGameToken "db" = "db" ∧ normalizeGameToken "qr" = "qr" := by
  have core : ∀ (s : String) (t : String), lowerL s.data = t.data →
      lowerL t.data = t.data →
      (∀ u : String, normalizeGameTokenL t.data = u.data →
        normalizeGameToken s = u) := by
    intro s t hst htl u hu
    apply string_data_eq_iff.mpr
    show normalizeGameTokenL s.data = u.data
    rw [← hu]
    simp only [normalizeGameTokenL]
    rw [hst, htl]
  refine ⟨?_, ?_, ?_, ?_, ?_, by decide, by decide, by decide, by decide,
    by decide, by decide⟩
  · intro s
    exact congrArg String.mk (normalizeGameTokenL_idem s.data)
  · intro s hs
    rcases hs with h | h | h
    · exact core s "hopqua" (congrArg String.data h) (by decide) "hq" (by decide)
    · exact core s "hq" (congrArg String.data h) (by decide) "hq" (by decide)
    · exact core s "hh" (congrArg String.data h) (by decide) "hq" (by decide)
  · intro s hs
    exact core s "qr" (congrArg String.data hs) (by decide) "qr" (by decide)
  · intro s hs
    rcases hs with h | h
    · exact core s "dabong" (congrArg String.data h) (by decide) "db" (by decide)
    · exact core s "db" (congrArg String.data h) (by decide) "db" (by decide)
  · intro s h1 h2 h3 h4 h5 h6
    have hne : ∀ t : String, lowerStr s ≠ t → lowerL s.data ≠ t.data := by
      intro t ht hd
      exact ht (string_data_eq_iff.mpr hd)
    apply string_data_eq_iff.mpr
    show normalizeGameTokenL s.data = (lowerStr s).data
    simp only [normalizeGameTokenL]
    rw [if_neg, if_neg, if_neg]
    · rfl
    · rintro (h | h)
      · exact hne "dabong" h5 h
      · exact hne "db" h6 h
    · exact hne "qr" h4
    · rintro (h | h | h)
      · exact hne "hopqua" h1 h
      · exact hne "hq" h2 h
      · exact hne "hh" h3 h

/-- Witness for C9 at a concrete input with a hypothesis discharged. -/
theorem c9_witness : normalizeGameToken "HH" = "hq" :=
  c9_normalize_idempotent_total.2.1 "HH" (Or.inr (Or.inr (by decide)))

/-- C8: resolving a device computes profit as the reported game amount
minus the recorded purchase price by plain integer subtraction (negative
profit is accepted as a loss, not an error), sets the device's status to
`ok`, and appends a PHONE_PROFIT_LOG record and an UNDO_LOG entry; with
purchase price 35000, game amount 60000 yields profit 25000 and game
amount 20000 yields profit −15000. -/
theorem c8_phone_profit :
    (∀ (st : Store) (code gs : List Char) (amt : Int) (now i : Nat) (t : Phone),
      selectPhone st.phones code = some (i, t) →
      logPhoneProfit st code gs amt now =
        .ok ({ st with
          phones := st.phones.set i
            { t with status := "ok".data, game_source := some gs,
                     game_amount := some amt, profit := some (amt - t.buyPrice),
                     ok_at := some now }
          phoneProfitLog := st.phoneProfitLog ++
            [{ timestamp := now, phoneCode := code, buyPrice := t.buyPrice,
               game_source := gs, game_amount := amt,
               profit := amt - t.buyPrice }]
          undoLog := st.undoLog ++ [⟨now, "PHONE_OK_PROFIT".data⟩] },
          t.buyPrice, amt - t.buyPrice)) ∧
    ((logPhoneProfit demoPhoneStore "ssa34".data "hq".data 60000 5).toOption.map
        (fun r => (r.2.1, r.2.2, r.1.phones.map (fun p => (p.status, p.profit)),
          r.1.phoneProfitLog.map (fun pr => pr.profit))) =
      some (35000, 25000, [("ok".data, some 25000)], [25000])) ∧
    ((logPhoneProfit demoPhoneStore "ssa34".data "hq".data 20000 5).toOption.map
        (fun r => (r.2.1, r.2.2, r.1.phones.map (fun p => (p.status, p.profit)),
          r.1.phoneProfitLog.map (fun pr => pr.profit))) =
      some (35000, -15000, [("ok".data, some (-15000))], [-15000])) := by
  refine ⟨?_, by rfl, by rfl⟩
  intro st code gs amt now i t hsel
  simp only [logPhoneProfit, hsel]

/-- Witness for C8 applying the structural clause at a concrete store. -/
theorem c8_witness :
    logPhoneProfit demoPhoneStore "ssa34".data "qr".data 40000 3 =
      .ok ({ demoPhoneStore with
        phones := demoPhoneStore.phones.set 0
          { demoPhone with status := "ok".data, game_source := some "qr".data,
                           game_amount := some 40000,
                           profit := some (40000 - demoPhone.buyPrice),
                           ok_at := some 3 }
        phoneProfitLog := demoPhoneStore.phoneProfitLog ++
          [{ timestamp := 3, phoneCode := "ssa34".data,
             buyPrice := demoPhone.buyPrice, game_source := "qr".data,
             game_amount := 40000, profit := 40000 - demoPhone.buyPrice }]
        undoLog := demoPhoneStore.undoLog ++ [⟨3, "PHONE_OK_PROFIT".data⟩] },
        demoPhone.buyPrice, 40000 - demoPhone.buyPrice) :=
  c8_phone_profit.1 demoPhoneStore "ssa34".data "qr".data 40000 3 0 demoPhone
    (by decide)

/-- C1: every wallet-affecting operation (`upsertWalletBalance` credits and
debits, and the admin `chinh` set-to-absolute) preserves "stored Balance =
sum of that wallet's WALLET_LOG amounts", for every wallet and every
operation sequence; the admin path logs `target − current` while storing
the absolute target, and the concrete §8 sequence (start 0, +100000,
−35000, admin-set 200000) ends with balance 200000 and log amounts
100000, −35000, 135000 summing to 200000. -/
theorem c1_wallet_invariant :
    (∀ (st : Store) (op : WalletOp), walletInv st → walletInv (applyWalletOp st op)) ∧
    (∀ (st : Store) (ops : List WalletOp), walletInv st →
      walletInv (ops.foldl applyWalletOp st)) ∧
    (∀ (st : Store) (w : Wallet) (target : Int) (now : Nat),
      (adminSetWallet st w target now).wallets w = target ∧
      (adminSetWallet st w target now).walletLog =
        st.walletLog ++
          [{ timestamp := now, wallet := walletName w,
             amount := target - st.wallets w, type := "admin_set".data,
             ref := "ADMIN_SET".data, note := "set balance".data }]) ∧
    (([WalletOp.adjust .hana 100000, .adjust .hana (-35000),
        .adminSet .hana 200000].foldl applyWalletOp emptyStore).wallets .hana
        = 200000 ∧
      (([WalletOp.adjust .hana 100000, .adjust .hana (-35000),
          .adminSet .hana 200000].foldl applyWalletOp emptyStore).walletLog.map
        (fun e => e.amount)) = [100000, -35000, 135000] ∧
      (([WalletOp.adjust .hana 100000, .adjust .hana (-35000),
          .adminSet .hana 200000].foldl applyWalletOp emptyStore).walletLog.map
        (fun e => e.amount)).sum = 200000) := by
  have hname : ∀ {a b : Wallet}, walletName a = walletName b → a = b := by
    intro a b h
    cases a <;> cases b <;> first | rfl | exact absurd h (by decide)
  have hstep : ∀ (st : Store) (op : WalletOp), walletInv st →
      walletInv (applyWalletOp st op) := by
    intro st op hinv w'
    cases op with
    | adjust w d =>
      simp only [applyWalletOp, upsertWalletBalance, List.filter_append,
        List.map_append, List.sum_append]
      by_cases hww : w' = w
      · subst hww
        rw [if_pos rfl, hinv w']
        simp
      · rw [if_neg hww, hinv w']
        have : walletName w ≠ walletName w' := fun h => hww (hname h).symm
        simp [List.filter, this]
    | adminSet w target =>
      simp only [applyWalletOp, adminSetWallet, List.filter_append,
        List.map_append, List.sum_append]
      by_cases hww : w' = w
      · subst hww
        rw [if_pos rfl, hinv w']
        simp
      · rw [if_neg hww, hinv w']
        have : walletName w ≠ walletName w' := fun h => hww (hname h).symm
        simp [List.filter, this]
  refine ⟨hstep, ?_, ?_, by decide, by decide, by decide⟩
  · intro st ops
    induction ops generalizing st with
    | nil => exact fun h => h
    | cons op ops ih =>
      intro h
      exact ih _ (hstep st op h)
  · intro st w target now
    constructor
    · simp [adminSetWallet]
    · rfl

/-- Witness for C1 applying the preservation clause to a concrete state. -/
theorem c1_witness :
    walletInv (applyWalletOp emptyStore (.adjust .uri 5)) :=
  c1_wallet_invariant.1 emptyStore (.adjust .uri 5)
    (by intro w; cases w <;> rfl)

theorem jsRoundN_one (n : ℕ) : jsRoundN n 1 = n := by
  unfold jsRoundN
  omega

theorem jsRound_natCast (n : ℕ) : jsRound ((n : ℚ)) = n := by
  have h := jsRound_natCast_div n 1 (by norm_num)
  rw [Nat.cast_one, div_one] at h
  rw [h, jsRoundN_one]

/-- C7: the money parser trims, lower-cases, strips commas, then succeeds
exactly when the rest fully matches "digits, optional decimal point and
digits, optional trailing `k`", reading the numeric part as a decimal,
multiplying by 1000 on a `k` suffix, rounding to the nearest integer
(`"100k"`→100000, `"0.5k"`→500, `"120000"`→120000, `"57k"`→57000), and
fails on empty or absent input and on any non-matching string: the
source-side `parseMoney` coincides with the spec-worded `parseMoneySpec`
on every string. -/
theorem c7_money_parse :
    (∀ s : String, parseMoney s = parseMoneySpec s) ∧
    parseMoney "100k" = some 100000 ∧ parseMoney "0.5k" = some 500 ∧
    parseMoney "120000" = some 120000 ∧ parseMoney "57k" = some 57000 ∧
    parseMoney "" = none ∧ parseMoney "abc" = none := by
  refine ⟨?_, ?_, ?_, ?_, ?_, by decide, by decide⟩
  · intro s
    unfold parseMoney parseMoneyL parseMoneySpec moneyCore
    by_cases hs : s.data = []
    · rw [if_pos hs, if_pos hs]
    · rw [if_neg hs, if_neg hs, matchShape_eq_specShape]
      rcases h : specShape (cleanMoney s.data) with _ | ⟨ds, fs, k⟩
      · rfl
      · simp only [moneyValue]
        cases k
        · simp [mul_one]
        · simp
  · rw [show parseMoney "100k" = some (moneyValue ['1', '0', '0'] [] true) from rfl,
      moneyValue_eq]
    decide
  · rw [show parseMoney "0.5k" = some (moneyValue ['0'] ['5'] true) from rfl,
      moneyValue_eq]
    decide
  · rw [show parseMoney "120000" =
        some (moneyValue ['1', '2', '0', '0', '0', '0'] [] false) from rfl,
      moneyValue_eq]
    decide
  · rw [show parseMoney "57k" = some (moneyValue ['5', '7'] [] true) from rfl,
      moneyValue_eq]
    decide

/-- C5 counterexample: the claimed identity
`parse(d + "k") = round(parse(d) * 1000)` fails at the decimal string
`d = "0.5"`: the left side is 500 while `parse("0.5")` is already the
rounded integer 1, so the right side is 1000. -/
theorem c5_counterexample :
    parseMoney ("0.5" ++ "k") = some 500 ∧ parseMoney "0.5" = some 1 ∧
    (500 : Int) ≠ jsRound ((1 : ℚ) * 1000) := by
  refine ⟨?_, ?_, ?_⟩
  · rw [show parseMoney ("0.5" ++ "k") = some (moneyValue ['0'] ['5'] true) from rfl,
      moneyValue_eq]
    decide
  · rw [show parseMoney "0.5" = some (moneyValue ['0'] ['5'] false) from rfl,
      moneyValue_eq]
    decide
  · rw [one_mul, show ((1000 : ℚ)) = ((1000 : ℕ) : ℚ) from by norm_num,
      jsRound_natCast]
    decide

/-- C5 as amended: for every decimal string `d` (digits with an optional
decimal point and digits, decomposed as `ds`/`fs`),
`parse(d + "k") = round(v · 1000)` where `v` is the decimal **value** of
`d` (not the already-rounded `parse(d)`); the remaining clauses of the
claim hold as stated: `parse("1,000") = 1000`, `parse("abc")` fails,
`parse("")` fails, `parse("60k") = 60000`. -/
theorem c5_amended :
    (∀ (d : String) (ds fs : List Char), ShapeP d.data ds fs false →
      parseMoney (d ++ "k") = some (jsRound (decValue ds fs * 1000))) ∧
    parseMoney "1,000" = some 1000 ∧ parseMoney "abc" = none ∧
    parseMoney "" = none ∧ parseMoney "60k" = some 60000 := by
  refine ⟨?_, ?_, by decide, by decide, ?_⟩
  · intro d ds fs hp
    have hdata : (d ++ "k").data = d.data ++ ['k'] := String.data_append d "k"
    have hp' : ShapeP (d.data ++ ['k']) ds fs true := by
      obtain ⟨hne, hds, hrest⟩ := hp
      refine ⟨hne, hds, ?_⟩
      rcases hrest with ⟨rfl, hl⟩ | ⟨hfs, hfsd, hl⟩
      · exact Or.inl ⟨rfl, by rw [hl]; simp [ktail_false, ktail_true]⟩
      · exact Or.inr ⟨hfs, hfsd, by rw [hl]; simp [ktail_false, ktail_true]⟩
    unfold parseMoney parseMoneyL
    rw [hdata, if_neg (by simp), moneyCore,
      cleanMoney_eq_self (shapeP_chars hp'), matchShape_of_shapeP hp']
    simp [moneyValue]
  · rw [show parseMoney "1,000" =
        some (moneyValue ['1', '0', '0', '0'] [] false) from rfl,
      moneyValue_eq]
    decide
  · rw [show parseMoney "60k" = some (moneyValue ['6', '0'] [] true) from rfl,
      moneyValue_eq]
    decide

/-- Witness for the amended C5 at the concrete decimal string `"0.25"`. -/
theorem c5_amended_witness :
    parseMoney ("0.25" ++ "k") = some (jsRound (decValue ['0'] ['2', '5'] * 1000)) :=
  c5_amended.1 "0.25" ['0'] ['2', '5'] (by decide)

/-- C3: a sweep pass reminds an invite exactly when it is pending, its due
date parses, `now` is on or after the due date, and `last_reminded_at` is
not on `now`'s calendar day; a reminded invite gets `last_reminded_at =
now` (and appears in the reminded list / has its session question opened),
is never reminded again by a sweep on the same calendar day, and a
still-pending still-overdue invite is reminded again on a later calendar
day. -/
theorem c3_due_sweep_throttle :
    (∀ (now : Nat) (r : Invite),
      shouldRemind now r = true ↔
        (lowerL r.status = "pending".data ∧
         ∃ d, r.due_date = some d ∧ d ≤ now ∧
           ∀ l, r.last_reminded_at = some l → dayOf l ≠ dayOf now)) ∧
    (∀ (st : Store) (sess : Sess) (now : Nat),
      (runDueCheck st sess now).1.invites = st.invites.map (sweepInvite now) ∧
      (runDueCheck st sess now).2.2 = st.invites.filter (shouldRemind now)) ∧
    (∀ (now : Nat) (r : Invite), shouldRemind now r = true →
      (sweepInvite now r).last_reminded_at = some now) ∧
    (∀ (T T' : Nat) (r : Invite), shouldRemind T r = true → dayOf T' = dayOf T →
      shouldRemind T' (sweepInvite T r) = false) ∧
    (∀ (T T' : Nat) (r : Invite) (d : Nat), shouldRemind T r = true →
      r.due_date = some d → d ≤ T' → dayOf T' ≠ dayOf T →
      shouldRemind T' (sweepInvite T r) = true) := by
  refine ⟨?_, fun _ _ _ => ⟨rfl, rfl⟩, ?_, ?_, ?_⟩
  · intro now r
    rcases hd : r.due_date with _ | d <;>
      rcases hl : r.last_reminded_at with _ | l <;>
      simp [shouldRemind, hd, hl]
  · intro now r h
    have hsw : sweepInvite now r = { r with last_reminded_at := some now } := by
      simp [sweepInvite, h]
    rw [hsw]
  · intro T T' r h hday
    have hsw : sweepInvite T r = { r with last_reminded_at := some T } := by
      simp [sweepInvite, h]
    rw [hsw]
    rcases hd : r.due_date with _ | d
    · simp [shouldRemind, hd]
    · simp [shouldRemind, hd, hday]
  · intro T T' r d h hd hle hday
    have hp : lowerL r.status = "pending".data := by
      rcases hp' : decide (lowerL r.status = "pending".data) with _ | _
      · simp [shouldRemind, hp'] at h
      · simpa using hp'
    have hsw : sweepInvite T r = { r with last_reminded_at := some T } := by
      simp [sweepInvite, h]
    rw [hsw]
    simp [shouldRemind, hd, hp, hle, Ne.symm hday]

/-- Witness for C3 applying the same-day-throttle clause concretely. -/
theorem c3_witness : shouldRemind 2000 (sweepInvite 1500 demoInvite) = false :=
  c3_due_sweep_throttle.2.2.2.1 1500 2000 demoInvite (by decide) (by decide)

/-- C10 (implicit): per conversation the session table holds at most one
pending question (it maps a chat id to an `Option Pend`), and the device
purchase, lot purchase, and due-sweep paths all open their question by
unconditionally overwriting the conversation's entry via `sessions.set`;
in the concrete scenario a wallet question for a just-bought device is
silently replaced by the sweep's check-in question, and after the check-in
answer completes, the device still has an empty wallet field and no wallet
debit was ever logged. -/
theorem c10_session_overwrite :
    (∀ (s : Sess) (c : Nat) (p : Pend), setSession s c p c = some p) ∧
    (∀ (st : Store) (sess : Sess) (c : Nat) (code : List Char) (price : Int)
        (now : Nat),
      (phoneBuyBranch st sess c code price now).2 =
        setSession sess c (.askWalletPhone code price)) ∧
    (∀ (st : Store) (sess : Sess) (c : Nat) (qty : Nat) (cost : Int)
        (now i : Nat) (lotRow : Lot),
      getLatestLot (createLot st c qty cost now) = some (i, lotRow) →
      (lotBuyBranch st sess c qty cost now).2 =
        setSession sess c (.askWalletLot lotRow.rowId cost)) ∧
    (∀ (st : Store) (sess : Sess) (now : Nat),
      (runDueCheck st sess now).2.1 =
        (st.invites.filter (shouldRemind now)).foldl
          (fun s r => setSession s r.chatId
            (.askCheckinReward (lowerL r.game) r.name r.email)) sess) ∧
    ((runDueCheck { emptyStore with phones := [demoPhone], invites := [demoInvite] }
        (setSession (fun _ => none) 7 (.askWalletPhone "ssa34".data 35000))
        2000).2.1 7 =
      some (.askCheckinReward "hq".data "Khanh".data "mail".data)) ∧
    ((handleAnswer
        (runDueCheck { emptyStore with phones := [demoPhone], invites := [demoInvite] }
          (setSession (fun _ => none) 7 (.askWalletPhone "ssa34".data 35000))
          2000).1
        7 "60k".data (.askCheckinReward "hq".data "Khanh".data "mail".data)
        2001).2.1 = none ∧
      (handleAnswer
        (runDueCheck { emptyStore with phones := [demoPhone], invites := [demoInvite] }
          (setSession (fun _ => none) 7 (.askWalletPhone "ssa34".data 35000))
          2000).1
        7 "60k".data (.askCheckinReward "hq".data "Khanh".data "mail".data)
        2001).2.2 = .confirmCheckin ∧
      (handleAnswer
        (runDueCheck { emptyStore with phones := [demoPhone], invites := [demoInvite] }
          (setSession (fun _ => none) 7 (.askWalletPhone "ssa34".data 35000))
          2000).1
        7 "60k".data (.askCheckinReward "hq".data "Khanh".data "mail".data)
        2001).1.phones.map (fun p => p.wallet) = [[]] ∧
      (handleAnswer
        (runDueCheck { emptyStore with phones := [demoPhone], invites := [demoInvite] }
          (setSession (fun _ => none) 7 (.askWalletPhone "ssa34".data 35000))
          2000).1
        7 "60k".data (.askCheckinReward "hq".data "Khanh".data "mail".data)
        2001).1.walletLog = []) := by
  refine ⟨?_, fun _ _ _ _ _ _ => rfl, ?_, fun _ _ _ => rfl, by decide,
    by decide, by decide, by decide, by decide⟩
  · intro s c p
    simp [setSession]
  · intro st sess c qty cost now i lotRow h
    simp only [lotBuyBranch]
    rw [h]

/-- Witness for C10 applying the lot-branch clause concretely. -/
theorem c10_witness :
    (lotBuyBranch emptyStore (fun _ => none) 1 5 100 0).2 =
      setSession (fun _ => none) 1 (.askWalletLot demoLot.rowId 100) :=
  c10_session_overwrite.2.2.1 emptyStore (fun _ => none) 1 5 100 0 0 demoLot
    (by decide)

/-- C4: while a conversation holds an outstanding question, every inbound
message is routed to the answer handler before any slash-command or
command-grammar matching (in both script variants); an invalid answer (an
unrecognized wallet name, an unparseable amount) re-prompts and leaves the
session entry unchanged; and the session returns to idle only when the
answer validated (the wallet name was recognized / the amount parsed). -/
theorem c4_session_answer_priority :
    (∀ (le : Bool) (p : Pend) (text : List Char),
      dispatchIndex le (some p) text = .sessionAnswer p ∧
      dispatchPart000 le (some p) text = .sessionAnswer p) ∧
    (∀ (st : Store) (c : Nat) (text code : List Char) (price : Int) (now : Nat),
      walletOf (trimList (lowerL text)) = none →
      handleAnswer st c text (.askWalletPhone code price) now =
        (st, some (.askWalletPhone code price), .repromptWallet)) ∧
    (∀ (st : Store) (c : Nat) (text : List Char) (rowId : Nat) (cost : Int)
        (now : Nat),
      walletOf (trimList (lowerL text)) = none →
      handleAnswer st c text (.askWalletLot rowId cost) now =
        (st, some (.askWalletLot rowId cost), .repromptWallet)) ∧
    (∀ (st : Store) (c : Nat) (text g n e : List Char) (now : Nat),
      parseMoneyL text = none →
      handleAnswer st c text (.askCheckinReward g n e) now =
        (st, some (.askCheckinReward g n e), .repromptMoney)) ∧
    (∀ (st : Store) (c : Nat) (text : List Char) (p : Pend) (now : Nat)
        (st' : Store) (rep : Reply),
      handleAnswer st c text p now = (st', none, rep) →
      (match p with
       | .askWalletPhone _ _ => (walletOf (trimList (lowerL text))).isSome = true
       | .askWalletLot _ _ => (walletOf (trimList (lowerL text))).isSome = true
       | .askCheckinReward _ _ _ => (parseMoneyL text).isSome = true)) := by
  refine ⟨fun _ _ _ => ⟨rfl, rfl⟩, ?_, ?_, ?_, ?_⟩
  · intro st c text code price now h
    simp [handleAnswer, handleWalletAnswer, h]
  · intro st c text rowId cost now h
    simp [handleAnswer, handleWalletAnswer, h]
  · intro st c text g n e now h
    simp [handleAnswer, handleCheckinAnswer, h]
  · intro st c text p now st' rep h
    cases p with
    | askWalletPhone code price =>
      simp only [handleAnswer, handleWalletAnswer] at h
      rcases hw : walletOf (trimList (lowerL text)) with _ | wa <;> rw [hw] at h
      · simp at h
      · simp [hw]
    | askWalletLot rowId cost =>
      simp only [handleAnswer, handleWalletAnswer] at h
      rcases hw : walletOf (trimList (lowerL text)) with _ | wa <;> rw [hw] at h
      · simp at h
      · simp [hw]
    | askCheckinReward g n e =>
      simp only [handleAnswer, handleCheckinAnswer] at h
      rcases hm : parseMoneyL text with _ | reward <;> rw [hm] at h
      · simp at h
      · simp [hm]

/-- Witness for C4 applying the invalid-wallet-answer clause concretely. -/
theorem c4_witness :
    handleAnswer emptyStore 1 "blah".data (.askWalletPhone "x".data 5) 0 =
      (emptyStore, some (.askWalletPhone "x".data 5), .repromptWallet) :=
  c4_session_answer_priority.2.1 emptyStore 1 "blah".data "x".data 5 0
    (by decide)

/-- C2: creating an invite appends an INVITES row with status `pending`
and due date exactly the invitation time plus 14 days; completion selects
the pending invite with maximal invited time whose game matches and whose
email or name matches case-insensitively; when no pending invite matches,
completion fails with a not-found error and leaves the store (in
particular every INVITES row) unmodified; a successful completion marks
exactly the selected row done with the reward and completion timestamp,
so a second attempt for the same (channel, person) — with no other
pending match — fails with the lookup error. -/
theorem c2_invite_lifecycle :
    (∀ (st : Store) (c : Nat) (g n e : List Char) (now : Nat),
      (createInvite st c g n e now).invites =
        st.invites ++
          [{ timestamp := now, game := g, name := n, email := e,
             time_invited := now, due_date := some (now + 14 * minutesPerDay),
             status := "pending".data, chatId := c, last_reminded_at := none,
             checkin_reward := none, completed_at := none }]) ∧
    (∀ (rows : List Invite) (g n e : List Char),
      selectInvite rows g n e = none ↔
        ∀ r ∈ rows, inviteMatches r g n e = false) ∧
    (∀ (rows : List Invite) (g n e : List Char) (i : Nat) (t : Invite),
      selectInvite rows g n e = some (i, t) →
      rows.get? i = some t ∧ inviteMatches t g n e = true ∧
        ∀ r ∈ rows, inviteMatches r g n e = true →
          r.time_invited ≤ t.time_invited) ∧
    (∀ (st : Store) (c : Nat) (g n e : List Char) (reward : Int) (now : Nat),
      selectInvite st.invites g n e = none →
      (∃ msg, markInviteDoneAndAddCheckin st c g n e reward now = .error msg) ∧
      ∀ (text : List Char) (now' : Nat),
        (handleAnswer st c text (.askCheckinReward g n e) now').1 = st) ∧
    (∀ (st : Store) (c : Nat) (g n e : List Char) (reward : Int) (now i : Nat)
        (t : Invite) (st' : Store),
      selectInvite st.invites g n e = some (i, t) →
      markInviteDoneAndAddCheckin st c g n e reward now = .ok st' →
      st'.invites = st.invites.set i
        { t with status := "done".data, checkin_reward := some reward,
                 completed_at := some now } ∧
      st'.checkinRewards = st.checkinRewards ++
        [{ timestamp := now, game := g, name := t.name, email := t.email,
           reward := reward, due_date := t.due_date, chatId := c }] ∧
      st'.gameRevenue = st.gameRevenue ++
        [{ timestamp := now, game := g, type := "checkin_reward".data,
           amount := reward, note := "checkin 14 ngay".data, chatId := c }] ∧
      st'.undoLog = st.undoLog ++
        [⟨now, "ADD_GAME_REVENUE".data⟩, ⟨now, "DONE_INVITE_CHECKIN".data⟩]) ∧
    (∀ (st : Store) (c : Nat) (g n e : List Char) (reward : Int) (now i : Nat)
        (t : Invite) (st' : Store),
      selectInvite st.invites g n e = some (i, t) →
      (∀ (j : Nat) (r : Invite), st.invites.get? j = some r →
        inviteMatches r g n e = true → j = i) →
      markInviteDoneAndAddCheckin st c g n e reward now = .ok st' →
      ∀ (c2 : Nat) (reward2 : Int) (now2 : Nat),
        ∃ msg, markInviteDoneAndAddCheckin st' c2 g n e reward2 now2 =
          .error msg) := by
  have hdone : decide (lowerL ("done".data) = "pending".data) = false := by decide
  refine ⟨fun _ _ _ _ _ _ => rfl, selectInvite_eq_none_iff,
    fun _ _ _ _ _ _ h => selectInvite_spec h, ?_, ?_, ?_⟩
  · intro st c g n e reward now hsel
    constructor
    · exact ⟨"Khong tim thay invite pending".data,
        by simp only [markInviteDoneAndAddCheckin, hsel]⟩
    · intro text now'
      simp only [handleAnswer, handleCheckinAnswer]
      rcases hm : parseMoneyL text with _ | reward'
      · rfl
      · simp only [markInviteDoneAndAddCheckin, hsel]
  · intro st c g n e reward now i t st' hsel hok
    simp only [markInviteDoneAndAddCheckin, hsel] at hok
    injection hok with hok
    subst hok
    refine ⟨by simp [addGameRevenue], by simp [addGameRevenue], ?_, ?_⟩
    · simp [addGameRevenue]
    · simp [addGameRevenue]
  · intro st c g n e reward now i t st' hsel huniq hok c2 reward2 now2
    simp only [markInviteDoneAndAddCheckin, hsel] at hok
    injection hok with hok
    subst hok
    have hnone : selectInvite
        (st.invites.set i
          { t with status := "done".data, checkin_reward := some reward,
                   completed_at := some now }) g n e = none := by
      rw [selectInvite_eq_none_iff]
      intro r hr
      rcases mem_set_cases hr with rfl | ⟨j, hji, hj⟩
      · simp only [inviteMatches, hdone, Bool.false_and]
      · cases hm2 : inviteMatches r g n e with
        | false => rfl
        | true => exact absurd (huniq j r hj hm2) hji
    refine ⟨"Khong tim thay invite pending".data, ?_⟩
    simp only [markInviteDoneAndAddCheckin, addGameRevenue, hnone]

/-- Witness for C2 applying the failure clause at a concrete store. -/
theorem c2_witness :
    ∃ msg, markInviteDoneAndAddCheckin emptyStore 1 "hq".data "x".data
      "y".data 5 0 = .error msg :=
  (c2_invite_lifecycle.2.2.2.1 emptyStore 1 "hq".data "x".data "y".data 5 0
    (by decide)).1

theorem lowerL_slash (w : List Char) : lowerL ('/' :: w) = '/' :: lowerL w := by
  simp only [lowerL, List.map_cons]
  rw [show lowerChar '/' = '/' from by decide]

theorem slash_startsWith_false {text : List Char} {k : Kw}
    (hk : kwTarget (lowerL ((tokensOf text).headD [])) = some k)
    (p : List Char) : startsWithL ('/' :: p) text = false := by
  cases hsw : startsWithL ('/' :: p) text with
  | false => rfl
  | true =>
    obtain ⟨w, hw⟩ := tokensOf_head_slash hsw
    rw [hw, lowerL_slash, kwTarget_slash] at hk
    exact Option.noConfusion hk

theorem dispatchIndex_kw (le : Bool) (text : List Char) (k : Kw)
    (hk : kwTarget (lowerL ((tokensOf text).headD [])) = some k) :
    dispatchIndex le none text = .kw k := by
  have h1 : startsWithL "/start".data text = false :=
    slash_startsWith_false hk "start".data
  have h2 : startsWithL "/help".data text = false :=
    slash_startsWith_false hk "help".data
  have h3 : startsWithL "/baocao".data text = false :=
    slash_startsWith_false hk "baocao".data
  have h4 : startsWithL "/pending".data text = false :=
    slash_startsWith_false hk "pending".data
  have h5 : startsWithL "/undo".data text = false :=
    slash_startsWith_false hk "undo".data
  simp only [dispatchIndex]
  rw [h1, if_neg Bool.false_ne_true, h2, if_neg Bool.false_ne_true, h3,
    if_neg Bool.false_ne_true, h4, if_neg Bool.false_ne_true, h5,
    if_neg Bool.false_ne_true]
  rcases kwTarget_cases hk with ⟨hc, rfl⟩ | ⟨hc, rfl⟩ | ⟨hc, rfl⟩ |
    ⟨hc, rfl⟩ | ⟨hc, rfl⟩ | ⟨hc, rfl⟩
  · rw [if_pos (Or.inl hc)]
  · rw [if_neg (by rintro (h | h) <;> exact absurd (hc.symm.trans h) (by decide)),
      if_pos (Or.inl hc)]
  · rw [if_neg (by rintro (h | h) <;> exact absurd (hc.symm.trans h) (by decide)),
      if_neg (by rintro (h | h) <;> exact absurd (hc.symm.trans h) (by decide)),
      if_pos hc]
  · rw [if_neg (by rintro (h | h) <;> exact absurd (hc.symm.trans h) (by decide)),
      if_neg (by rintro (h | h) <;> exact absurd (hc.symm.trans h) (by decide)),
      if_neg (fun h => absurd (hc.symm.trans h) (by decide)),
      if_pos hc]
  · rw [if_neg (by rintro (h | h) <;> exact absurd (hc.symm.trans h) (by decide)),
      if_neg (by rintro (h | h) <;> exact absurd (hc.symm.trans h) (by decide)),
      if_neg (fun h => absurd (hc.symm.trans h) (by decide)),
      if_neg (fun h => absurd (hc.symm.trans h) (by decide)),
      if_pos hc]
  · rw [if_neg (by rintro (h | h) <;> exact absurd (hc.symm.trans h) (by decide)),
      if_neg (by rintro (h | h) <;> exact absurd (hc.symm.trans h) (by decide)),
      if_neg (fun h => absurd (hc.symm.trans h) (by decide)),
      if_neg (fun h => absurd (hc.symm.trans h) (by decide)),
      if_neg (fun h => absurd (hc.symm.trans h) (by decide)),
      if_pos hc]

theorem dispatchPart000_kw (le : Bool) (text : List Char) (k : Kw)
    (hne : k ≠ .mua)
    (hk : kwTarget (lowerL ((tokensOf text).headD [])) = some k) :
    dispatchPart000 le none text = .kw k := by
  have h1 : startsWithL "/start".data text = false :=
    slash_startsWith_false hk "start".data
  have h2 : startsWithL "/help".data text = false :=
    slash_startsWith_false hk "help".data
  have h3 : startsWithL "/baocao".data text = false :=
    slash_startsWith_false hk "baocao".data
  have h4 : startsWithL "/pending".data text = false :=
    slash_startsWith_false hk "pending".data
  have h5 : startsWithL "/undo".data text = false :=
    slash_startsWith_false hk "undo".data
  simp only [dispatchPart000]
  rw [h1, if_neg Bool.false_ne_true, h2, if_neg Bool.false_ne_true, h3,
    if_neg Bool.false_ne_true, h4, if_neg Bool.false_ne_true, h5,
    if_neg Bool.false_ne_true]
  rcases kwTarget_cases hk with ⟨hc, rfl⟩ | ⟨hc, rfl⟩ | ⟨hc, rfl⟩ |
    ⟨hc, rfl⟩ | ⟨hc, rfl⟩ | ⟨hc, rfl⟩
  · rw [if_pos (Or.inl hc)]
  · rw [if_neg (by rintro (h | h) <;> exact absurd (hc.symm.trans h) (by decide)),
      if_pos (Or.inl hc)]
  · rw [if_neg (by rintro (h | h) <;> exact absurd (hc.symm.trans h) (by decide)),
      if_neg (by rintro (h | h) <;> exact absurd (hc.symm.trans h) (by decide)),
      if_pos hc]
  · rw [if_neg (by rintro (h | h) <;> exact absurd (hc.symm.trans h) (by decide)),
      if_neg (by rintro (h | h) <;> exact absurd (hc.symm.trans h) (by decide)),
      if_neg (fun h => absurd (hc.symm.trans h) (by decide)),
      if_pos hc]
  · rw [if_neg (by rintro (h | h) <;> exact absurd (hc.symm.trans h) (by decide)),
      if_neg (by rintro (h | h) <;> exact absurd (hc.symm.trans h) (by decide)),
      if_neg (fun h => absurd (hc.symm.trans h) (by decide)),
      if_neg (fun h => absurd (hc.symm.trans h) (by decide)),
      if_pos hc]
  · exact absurd rfl hne

theorem dispatchPart000_mua (le : Bool) (text : List Char)
    (hk : kwTarget (lowerL ((tokensOf text).headD [])) = some .mua)
    (hpb : ¬ phoneBuyCond (tokensOf text) (lowerL ((tokensOf text).headD [])))
    (hpo : ¬ phoneOkCond (tokensOf text) (lowerL ((tokensOf text).headD []))
      (lowerL ((tokensOf text).getD 1 []))) :
    dispatchPart000 le none text = .kw .mua := by
  have h1 : startsWithL "/start".data text = false :=
    slash_startsWith_false hk "start".data
  have h2 : startsWithL "/help".data text = false :=
    slash_startsWith_false hk "help".data
  have h3 : startsWithL "/baocao".data text = false :=
    slash_startsWith_false hk "baocao".data
  have h4 : startsWithL "/pending".data text = false :=
    slash_startsWith_false hk "pending".data
  have h5 : startsWithL "/undo".data text = false :=
    slash_startsWith_false hk "undo".data
  have hc : lowerL ((tokensOf text).headD []) = "mua".data := by
    rcases kwTarget_cases hk with ⟨_, hke⟩ | ⟨_, hke⟩ | ⟨_, hke⟩ |
      ⟨_, hke⟩ | ⟨_, hke⟩ | ⟨hc, _⟩
    · exact absurd hke (by decide)
    · exact absurd hke (by decide)
    · exact absurd hke (by decide)
    · exact absurd hke (by decide)
    · exact absurd hke (by decide)
    · exact hc
  simp only [dispatchPart000]
  rw [h1, if_neg Bool.false_ne_true, h2, if_neg Bool.false_ne_true, h3,
    if_neg Bool.false_ne_true, h4, if_neg Bool.false_ne_true, h5,
    if_neg Bool.false_ne_true,
    if_neg (by rintro (h | h) <;> exact absurd (hc.symm.trans h) (by decide)),
    if_neg (by rintro (h | h) <;> exact absurd (hc.symm.trans h) (by decide)),
    if_neg (fun h => absurd (hc.symm.trans h) (by decide)),
    if_neg (fun h => absurd (hc.symm.trans h) (by decide)),
    if_neg (fun h => absurd (hc.symm.trans h) (by decide)),
    if_neg hpb, if_neg hpo, if_pos hc]

theorem ite_eq_imp {c : Prop} [Decidable c] {α : Type} {a b r : α}
    (h : (if c then a else b) = r) : (c ∧ a = r) ∨ (¬ c ∧ b = r) := by
  by_cases hc : c
  · rw [if_pos hc] at h
    exact Or.inl ⟨hc, h⟩
  · rw [if_neg hc] at h
    exact Or.inr ⟨hc, h⟩

theorem dispatchIndex_phoneBuy_cond {le : Bool} {text : List Char}
    (h : dispatchIndex le none text = .phoneBuy) :
    phoneBuyCond (tokensOf text) (lowerL ((tokensOf text).headD [])) := by
  simp only [dispatchIndex] at h
  rcases ite_eq_imp h with ⟨_, h⟩ | ⟨_, h⟩
  · exact absurd h (by decide)
  rcases ite_eq_imp h with ⟨_, h⟩ | ⟨_, h⟩
  · exact absurd h (by decide)
  rcases ite_eq_imp h with ⟨_, h⟩ | ⟨_, h⟩
  · exact absurd h (by decide)
  rcases ite_eq_imp h with ⟨_, h⟩ | ⟨_, h⟩
  · exact absurd h (by decide)
  rcases ite_eq_imp h with ⟨_, h⟩ | ⟨_, h⟩
  · exact absurd h (by decide)
  rcases ite_eq_imp h with ⟨_, h⟩ | ⟨_, h⟩
  · exact absurd h (by decide)
  rcases ite_eq_imp h with ⟨_, h⟩ | ⟨_, h⟩
  · exact absurd h (by decide)
  rcases ite_eq_imp h with ⟨_, h⟩ | ⟨_, h⟩
  · exact absurd h (by decide)
  rcases ite_eq_imp h with ⟨_, h⟩ | ⟨_, h⟩
  · exact absurd h (by decide)
  rcases ite_eq_imp h with ⟨_, h⟩ | ⟨_, h⟩
  · exact absurd h (by decide)
  rcases ite_eq_imp h with ⟨_, h⟩ | ⟨_, h⟩
  · exact absurd h (by decide)
  rcases ite_eq_imp h with ⟨hmay, h⟩ | ⟨_, h⟩
  · rcases ite_eq_imp h with ⟨_, h⟩ | ⟨_, h⟩
    · exact absurd h (by decide)
    rcases ite_eq_imp h with ⟨_, h⟩ | ⟨_, h⟩
    · exact absurd h (by decide)
    rcases ite_eq_imp h with ⟨_, h⟩ | ⟨_, h⟩
    · exact absurd h (by decide)
    rcases ite_eq_imp h with ⟨hpb, _⟩ | ⟨_, h⟩
    · exact hpb
    rcases ite_eq_imp h with ⟨_, h⟩ | ⟨_, h⟩
    · exact absurd h (by decide)
    exact absurd h (by decide)
  · rcases ite_eq_imp h with ⟨hpb, _⟩ | ⟨_, h⟩
    · exact hpb
    rcases ite_eq_imp h with ⟨_, h⟩ | ⟨_, h⟩
    · exact absurd h (by decide)
    exact absurd h (by decide)

theorem dispatchPart000_phoneBuy_cond {le : Bool} {text : List Char}
    (h : dispatchPart000 le none text = .phoneBuy) :
    phoneBuyCond (tokensOf text) (lowerL ((tokensOf text).headD [])) := by
  simp only [dispatchPart000] at h
  rcases ite_eq_imp h with ⟨_, h⟩ | ⟨_, h⟩
  · exact absurd h (by decide)
  rcases ite_eq_imp h with ⟨_, h⟩ | ⟨_, h⟩
  · exact absurd h (by decide)
  rcases ite_eq_imp h with ⟨_, h⟩ | ⟨_, h⟩
  · exact absurd h (by decide)
  rcases ite_eq_imp h with ⟨_, h⟩ | ⟨_, h⟩
  · exact absurd h (by decide)
  rcases ite_eq_imp h with ⟨_, h⟩ | ⟨_, h⟩
  · exact absurd h (by decide)
  rcases ite_eq_imp h with ⟨_, h⟩ | ⟨_, h⟩
  · exact absurd h (by decide)
  rcases ite_eq_imp h with ⟨_, h⟩ | ⟨_, h⟩
  · exact absurd h (by decide)
  rcases ite_eq_imp h with ⟨_, h⟩ | ⟨_, h⟩
  · exact absurd h (by decide)
  rcases ite_eq_imp h with ⟨_, h⟩ | ⟨_, h⟩
  · exact absurd h (by decide)
  rcases ite_eq_imp h with ⟨_, h⟩ | ⟨_, h⟩
  · exact absurd h (by decide)
  rcases ite_eq_imp h with ⟨hpb, _⟩ | ⟨_, h⟩
  · exact hpb
  rcases ite_eq_imp h with ⟨_, h⟩ | ⟨_, h⟩
  · exact absurd h (by decide)
  rcases ite_eq_imp h with ⟨_, h⟩ | ⟨_, h⟩
  · exact absurd h (by decide)
  rcases ite_eq_imp h with ⟨_, h⟩ | ⟨_, h⟩
  · rcases ite_eq_imp h with ⟨_, h⟩ | ⟨_, h⟩
    · exact absurd h (by decide)
    rcases ite_eq_imp h with ⟨_, h⟩ | ⟨_, h⟩
    · exact absurd h (by decide)
    rcases ite_eq_imp h with ⟨_, h⟩ | ⟨_, h⟩
    · exact absurd h (by decide)
    exact absurd h (by decide)
  · exact absurd h (by decide)

/-- C6 counterexample: the message `mua 120k` has the reserved first
keyword `mua`, and src/index.js routes it to the `mua` lot-purchase
branch, but the src/unnamed/part_000 router (which tries the
device-purchase fallback before the `mua` branch) routes it to the
generic device-purchase fallback. -/
theorem c6_counterexample :
    kwTarget (lowerL ((tokensOf "mua 120k".data).headD [])) = some .mua ∧
    dispatchIndex true none "mua 120k".data = .kw .mua ∧
    dispatchPart000 true none "mua 120k".data = .phoneBuy := by
  refine ⟨?_, ?_, ?_⟩ <;> decide

/-- C6 (amended): in src/index.js every message whose lower-cased first
token is a reserved keyword (`dabong`, `hopqua`, `qr`, `them`, `chinh`,
`mua`) dispatches to that keyword's branch, and the device-purchase
fallback fires only when the two-token/money/alphanumeric guard holds and
the first token is no reserved keyword.  In src/unnamed/part_000 this
holds for the five keywords tried before the fallback, while a `mua`
message reaches the `mua` branch only if neither the device-purchase nor
the device-resolve guard captures it first; there the fallback requires
the same guard but the first token may be `mua` itself. -/
theorem c6_amended :
    (∀ (le : Bool) (text : List Char) (k : Kw),
      kwTarget (lowerL ((tokensOf text).headD [])) = some k →
      dispatchIndex le none text = .kw k) ∧
    (∀ (le : Bool) (text : List Char),
      dispatchIndex le none text = .phoneBuy →
      phoneBuyCond (tokensOf text) (lowerL ((tokensOf text).headD [])) ∧
        kwTarget (lowerL ((tokensOf text).headD [])) = none) ∧
    (∀ (le : Bool) (text : List Char) (k : Kw), k ≠ .mua →
      kwTarget (lowerL ((tokensOf text).headD [])) = some k →
      dispatchPart000 le none text = .kw k) ∧
    (∀ (le : Bool) (text : List Char),
      kwTarget (lowerL ((tokensOf text).headD [])) = some .mua →
      ¬ phoneBuyCond (tokensOf text) (lowerL ((tokensOf text).headD [])) →
      ¬ phoneOkCond (tokensOf text) (lowerL ((tokensOf text).headD []))
          (lowerL ((tokensOf text).getD 1 [])) →
      dispatchPart000 le none text = .kw .mua) ∧
    (∀ (le : Bool) (text : List Char),
      dispatchPart000 le none text = .phoneBuy →
      phoneBuyCond (tokensOf text) (lowerL ((tokensOf text).headD [])) ∧
        (kwTarget (lowerL ((tokensOf text).headD [])) = none ∨
          kwTarget (lowerL ((tokensOf text).headD [])) = some .mua)) := by
  refine ⟨fun le text k hk => dispatchIndex_kw le text k hk,
    fun le text h => ⟨dispatchIndex_phoneBuy_cond h, ?_⟩,
    fun le text k hne hk => dispatchPart000_kw le text k hne hk,
    fun le text hk hpb hpo => dispatchPart000_mua le text hk hpb hpo,
    fun le text h => ⟨dispatchPart000_phoneBuy_cond h, ?_⟩⟩
  · cases hq : kwTarget (lowerL ((tokensOf text).headD [])) with
    | none => rfl
    | some k =>
      rw [dispatchIndex_kw le text k hq] at h
      simp at h
  · cases hq : kwTarget (lowerL ((tokensOf text).headD [])) with
    | none => exact Or.inl rfl
    | some k =>
      by_cases hm : k = Kw.mua
      · exact Or.inr (by rw [hm])
      · rw [dispatchPart000_kw le text k hm hq] at h
        simp at h

/-- Witness for C6 applying the keyword-priority clauses at concrete
messages. -/
theorem c6_witness :
    dispatchIndex false none "dabong 100k".data = .kw .dabong ∧
    dispatchPart000 false none "chinh uri 50k".data = .kw .chinh ∧
    dispatchPart000 false none "mua thiet bi 120k".data = .kw .mua :=
  ⟨c6_amended.1 false "dabong 100k".data .dabong (by decide),
   c6_amended.2.2.1 false "chinh uri 50k".data .chinh (by decide) (by decide),
   c6_amended.2.2.2.1 false "mua thiet bi 120k".data (by decide) (by decide)
     (by decide)⟩
